import Mathlib

/-!
Verification of the omnidict repository: cache-key codec (`omnidict/caching.py`),
key-value repositories (`omnidict/repositories.py`) and the memoizing decorator.
Python strings are embedded as `List Char`; Python `dict`s used as storage are
embedded as functions `Key → Option _`; the wall clock (`datetime.now`) is an
explicit `Nat` parameter threaded through the operations that read it.
-/

namespace Omnidict

/-! ## Cache-key codec (`Cache` in `src/omnidict/caching.py`)

Separator constants `Cache.fun_sep`, `Cache.type_sep`, `Cache.param_sep`. -/

def fun_sep : List Char := [':', '?', ':']

def type_sep : List Char := [':', '&', ':']

def param_sep : List Char := [':', ':', ':']

/-- Embedding of the relevant fields of a Python function object used by
`Cache.key_from_function_call`: `__module__`, `__name__` and the
`__code__` members `co_posonlyargcount`, `co_argcount`,
`co_kwonlyargcount`, `co_varnames`. -/
structure FuncCode where
  module : List Char
  name : List Char
  co_posonlyargcount : Nat
  co_argcount : Nat
  co_kwonlyargcount : Nat
  co_varnames : List (List Char)

/-- Lookup in the caller's keyword-argument dict (`kwargs[varname]`,
`KeyError` mapped to `none`). A Python call never carries duplicate
keyword names, so first-match lookup is exact. -/
def lookupName {V : Type} : List (List Char × V) → List Char → Option V
  | [], _ => none
  | p :: rest, n => if p.1 = n then some p.2 else lookupName rest n

/-- The loop body of the inner helper `all_as_kwargs` of
`Cache.key_from_function_call`, iterating over the (reversed) declared
parameter names. Faithful to the source: a name found in `kwargs` is taken
from there (`continue`); otherwise, when the remaining capacity
`nargs - len(in_kwargs)` equals `co_posonlyargcount` the loop `break`s;
otherwise the last positional argument, if any, is popped into the keyword
dict, and a pop from an empty list (`IndexError`) is caught and ignored. -/
def all_as_kwargs {V : Type} (npos nargs : Nat) (kwargs : List (List Char × V)) :
    List (List Char) → List V → List (List Char × V) → List V × List (List Char × V)
  | [], in_args, in_kwargs => (in_args, in_kwargs)
  | vn :: rest, in_args, in_kwargs =>
    match lookupName kwargs vn with
    | some v => all_as_kwargs npos nargs kwargs rest in_args (in_kwargs ++ [(vn, v)])
    | none =>
      if nargs - in_kwargs.length = npos then (in_args, in_kwargs)
      else
        match in_args.getLast? with
        | some v => all_as_kwargs npos nargs kwargs rest in_args.dropLast (in_kwargs ++ [(vn, v)])
        | none => all_as_kwargs npos nargs kwargs rest in_args in_kwargs

/-- Python's `sep.join(parts)` on character lists. -/
def joinSep (sep : List Char) : List (List Char) → List Char
  | [] => []
  | [p] => p
  | p :: ps => p ++ sep ++ joinSep sep ps

/-- Embedding of `Cache.key_from_function_call`. Argument values live in an
abstract type `V`; `toStr` is Python's `str` applied when the key is
rendered (`map(str, in_args)` and `"{0}={1}".format`). The function is
total: both exceptions that can occur inside `all_as_kwargs` (`KeyError`,
`IndexError`) are caught by the source. -/
def key_from_function_call {V : Type} (func : FuncCode) (toStr : V → List Char)
    (args : List V) (kwargs : List (List Char × V)) : List Char :=
  let nargs := func.co_argcount + func.co_kwonlyargcount
  let varnames := (func.co_varnames.take nargs).reverse
  let r := all_as_kwargs func.co_posonlyargcount nargs kwargs varnames args []
  let qualName := func.module ++ '.' :: func.name
  let argstr := joinSep param_sep (r.1.map toStr)
  let kwargstr := joinSep param_sep (r.2.map (fun p => p.1 ++ '=' :: toStr p.2))
  qualName ++ fun_sep ++ argstr ++ type_sep ++ kwargstr

/-! ### Characterization of the rebinding loop -/

lemma lookupName_eq_of_mem {V : Type} {pl : List (List Char × V)} {n : List Char} {v : V}
    (hnd : (pl.map Prod.fst).Nodup) (hmem : (n, v) ∈ pl) :
    lookupName pl n = some v := by
  induction pl with
  | nil => cases hmem
  | cons p rest ih =>
    simp only [List.map_cons, List.nodup_cons] at hnd
    rcases List.mem_cons.mp hmem with h | h
    · subst h
      simp [lookupName]
    · have hne : p.1 ≠ n := by
        intro hb
        exact hnd.1 (hb ▸ List.mem_map_of_mem Prod.fst h)
      simpa [lookupName, hne] using ih hnd.2 h

lemma lookupName_eq_none {V : Type} {pl : List (List Char × V)} {n : List Char}
    (h : n ∉ pl.map Prod.fst) : lookupName pl n = none := by
  induction pl with
  | nil => rfl
  | cons p rest ih =>
    simp only [List.map_cons, List.mem_cons, not_or] at h
    have hne : p.1 ≠ n := fun hb => h.1 hb.symm
    simpa [lookupName, hne] using ih h.2

/-- Phase of the loop that walks names all present in `kwargs`: each one is
bound from `kwargs` and the loop continues. -/
lemma loop_kwargs_phase {V : Type} (npos nargs : Nat) (kwargs : List (List Char × V))
    (pl : List (List Char × V)) :
    ∀ (names_rest : List (List Char)) (in_args : List V) (ik : List (List Char × V)),
    (∀ p ∈ pl, lookupName kwargs p.1 = some p.2) →
    all_as_kwargs npos nargs kwargs (pl.map Prod.fst ++ names_rest) in_args ik
      = all_as_kwargs npos nargs kwargs names_rest in_args (ik ++ pl) := by
  induction pl with
  | nil => intro names_rest in_args ik _; simp
  | cons p rest ih =>
    obtain ⟨pn, pv⟩ := p
    intro names_rest in_args ik h
    have hp := h (pn, pv) (List.mem_cons_self ..)
    simp only [List.map_cons, List.cons_append, all_as_kwargs, hp, List.append_eq]
    rw [ih names_rest in_args (ik ++ [(pn, pv)])
      (fun q hq => h q (List.mem_cons_of_mem _ hq))]
    simp

/-- Phase of the loop that pops positional arguments into the keyword dict:
with `j` pops remaining before the capacity check `nargs - len(in_kwargs) == npos`
fires, the last `j` positional arguments (here `ws` lists the positional
arguments from the last backwards, so `in_args = ws.reverse`) move to the
keyword dict, paired with the first `j` walked names. -/
lemma loop_pop_phase {V : Type} (npos nargs : Nat) (kwargs : List (List Char × V)) :
    ∀ (j : Nat) (rs : List (List Char)) (ws : List V) (ik : List (List Char × V)),
    (∀ n ∈ rs, lookupName kwargs n = none) →
    ik.length + (npos + j) = nargs →
    j ≤ rs.length → j ≤ ws.length →
    all_as_kwargs npos nargs kwargs rs ws.reverse ik
      = ((ws.drop j).reverse, ik ++ (rs.zip ws).take j) := by
  intro j
  induction j with
  | zero =>
    intro rs ws ik h harith _ _
    have hcond : nargs - ik.length = npos := by omega
    cases rs with
    | nil => simp [all_as_kwargs]
    | cons r rs' =>
      simp [all_as_kwargs, h r (List.mem_cons_self ..), hcond]
  | succ j ih =>
    intro rs ws ik h harith hrs hws
    cases rs with
    | nil => simp at hrs
    | cons r rs' =>
      cases ws with
      | nil => simp at hws
      | cons w ws' =>
        have hlook := h r (List.mem_cons_self ..)
        have hcond : ¬ nargs - ik.length = npos := by omega
        have hlast : (w :: ws').reverse.getLast? = some w := by
          simp [List.reverse_cons]
        have hdrop : (w :: ws').reverse.dropLast = ws'.reverse := by
          simp [List.reverse_cons]
        simp only [all_as_kwargs, hlook, hcond, if_false, hlast, hdrop]
        rw [ih rs' ws' (ik ++ [(r, w)])
          (fun n hn => h n (List.mem_cons_of_mem _ hn))
          (by simpa using by omega)
          (by simpa using Nat.le_of_succ_le_succ hrs)
          (by simpa using Nat.le_of_succ_le_succ hws)]
        simp

lemma zip_reverse {α β : Type} :
    ∀ (l : List α) (l' : List β), l.length = l'.length →
    l.reverse.zip l'.reverse = (l.zip l').reverse := by
  intro l
  induction l with
  | nil => intro l' h; simp
  | cons a l ih =>
    intro l' h
    cases l' with
    | nil => simp at h
    | cons b l' =>
      simp only [List.length_cons, Nat.succ.injEq] at h
      simp only [List.reverse_cons]
      rw [List.zip_append (by simp [h]), ih l' h]
      simp

/-- Characterization of `all_as_kwargs` on a valid fully-binding call form:
the first `k` parameters are passed positionally (`npos ≤ k`, all
positional-only slots honoured) and the remaining ones by keyword
(`kwargs` is any dict that binds exactly the parameters from the `k`-th
on to their values). The result does not depend on `k` or on `kwargs`'
ordering: the positional-only values stay positional and every other
parameter ends up in the keyword dict, walked from the last parameter
backwards. -/
lemma all_as_kwargs_valid {V : Type} (npos : Nat) (params : List (List Char)) (vals : List V)
    (k : Nat) (kwargs : List (List Char × V)) (hlen : params.length = vals.length)
    (hk1 : npos ≤ k) (hk2 : k ≤ params.length)
    (hkwa : ∀ p ∈ (params.drop k).zip (vals.drop k), lookupName kwargs p.1 = some p.2)
    (hkwb : ∀ n ∈ params.take k, lookupName kwargs n = none) :
    all_as_kwargs npos params.length kwargs
        params.reverse (vals.take k) []
      = (vals.take npos, ((params.zip vals).drop npos).reverse) := by
  have hlentk : (params.take k).length = k := by
    simp [List.length_take, Nat.min_eq_left hk2]
  have hlenvk : (vals.take k).length = k := by
    simp [List.length_take, Nat.min_eq_left (hlen ▸ hk2)]
  have hmapfst : ((params.drop k).zip (vals.drop k)).map Prod.fst = params.drop k :=
    List.map_fst_zip _ _ (by simp [hlen])
  have hsplit : params.reverse = (params.drop k).reverse ++ (params.take k).reverse := by
    rw [← List.reverse_append, List.take_append_drop]
  -- phase A: the keyword-passed parameters, walked from the last backwards
  rw [hsplit]
  have hA := loop_kwargs_phase npos params.length kwargs
    (((params.drop k).zip (vals.drop k)).reverse)
    ((params.take k).reverse) (vals.take k) []
    (fun p hp => hkwa p (List.mem_reverse.mp hp))
  rw [show ((params.drop k).reverse)
        = (((params.drop k).zip (vals.drop k)).reverse).map Prod.fst by
      rw [List.map_reverse, hmapfst], hA]
  -- phase B: the positionally-passed parameters; `k - npos` of them are popped
  have hB := loop_pop_phase npos params.length kwargs
    (k - npos) ((params.take k).reverse) ((vals.take k).reverse)
    (((params.drop k).zip (vals.drop k)).reverse)
    (fun n hn => hkwb n (List.mem_reverse.mp hn))
    (by
      have : ((params.drop k).zip (vals.drop k)).length = params.length - k := by
        simp [List.length_zip, hlen]
      simp only [List.length_reverse, this]
      omega)
    (by simp [hlentk])
    (by simp [hlenvk])
  rw [List.reverse_reverse] at hB
  rw [List.nil_append, hB, Prod.mk.injEq]
  refine ⟨?_, ?_⟩
  · -- positional component: the first npos values survive
    rw [List.drop_reverse, List.reverse_reverse, hlenvk,
      show k - (k - npos) = npos by omega, List.take_take,
      Nat.min_eq_left hk1]
  · -- keyword component
    have hzr : ((params.take k).reverse).zip ((vals.take k).reverse)
        = ((params.take k).zip (vals.take k)).reverse :=
      zip_reverse _ _ (by rw [hlentk, hlenvk])
    have hlenz : ((params.take k).zip (vals.take k)).length = k := by
      simp [List.length_zip, hlentk, hlenvk]
    rw [hzr, List.take_reverse, hlenz,
      show k - (k - npos) = npos by omega,
      ← List.reverse_append,
      ← List.drop_append_of_le_length (by rw [hlenz]; omega),
      ← List.zip_append (hlentk.trans hlenvk.symm),
      List.take_append_drop, List.take_append_drop]

lemma all_as_kwargs_valid_nargs {V : Type} (npos nargs : Nat) (params : List (List Char))
    (vals : List V) (k : Nat) (kwargs : List (List Char × V))
    (hpn : params.length = nargs) (hlen : params.length = vals.length)
    (hk1 : npos ≤ k) (hk2 : k ≤ params.length)
    (hkwa : ∀ p ∈ (params.drop k).zip (vals.drop k), lookupName kwargs p.1 = some p.2)
    (hkwb : ∀ n ∈ params.take k, lookupName kwargs n = none) :
    all_as_kwargs npos nargs kwargs params.reverse (vals.take k) []
      = (vals.take npos, ((params.zip vals).drop npos).reverse) := by
  subst hpn
  exact all_as_kwargs_valid npos params vals k kwargs hlen hk1 hk2 hkwa hkwb

/-- C1: for every function and every two fully-binding call forms that bind
the same effective parameter values (the first `k` parameters positionally
— `k` at least the positional-only count and at most `co_argcount` — and
every remaining parameter by keyword), `Cache.key_from_function_call`
produces byte-identical keys. -/
theorem key_from_function_call_binding_invariant {V : Type} (func : FuncCode)
    (toStr : V → List Char) (vals : List V) (k1 k2 : Nat)
    (kwargs1 kwargs2 : List (List Char × V))
    (hvn : func.co_argcount + func.co_kwonlyargcount ≤ func.co_varnames.length)
    (hlen : vals.length = func.co_argcount + func.co_kwonlyargcount)
    (hka : func.co_posonlyargcount ≤ k1) (hkb : k1 ≤ func.co_argcount)
    (hkc : func.co_posonlyargcount ≤ k2) (hkd : k2 ≤ func.co_argcount)
    (h1a : ∀ p ∈ ((func.co_varnames.take (func.co_argcount + func.co_kwonlyargcount)).drop
      k1).zip (vals.drop k1), lookupName kwargs1 p.1 = some p.2)
    (h1b : ∀ n ∈ (func.co_varnames.take (func.co_argcount + func.co_kwonlyargcount)).take k1,
      lookupName kwargs1 n = none)
    (h2a : ∀ p ∈ ((func.co_varnames.take (func.co_argcount + func.co_kwonlyargcount)).drop
      k2).zip (vals.drop k2), lookupName kwargs2 p.1 = some p.2)
    (h2b : ∀ n ∈ (func.co_varnames.take (func.co_argcount + func.co_kwonlyargcount)).take k2,
      lookupName kwargs2 n = none) :
    key_from_function_call func toStr (vals.take k1) kwargs1
      = key_from_function_call func toStr (vals.take k2) kwargs2 := by
  have hplen : ((func.co_varnames.take (func.co_argcount + func.co_kwonlyargcount))).length
      = func.co_argcount + func.co_kwonlyargcount := by
    simp [Nat.min_eq_left hvn]
  simp only [key_from_function_call]
  rw [all_as_kwargs_valid_nargs _ _ _ _ _ _ hplen (hplen.trans hlen.symm) hka
      (by omega) h1a h1b,
    all_as_kwargs_valid_nargs _ _ _ _ _ _ hplen (hplen.trans hlen.symm) hkc
      (by omega) h2a h2b]

/-- Python `str` on natural numbers, used to instantiate the abstract
argument-value type in concrete examples. -/
def natStr (n : Nat) : List Char := (toString n).data

/-- The code object of the test function `f(a, b, /, c, d, *, e, f)` from
`tests/test_caching.py`. -/
def fSig : FuncCode where
  module := "test_caching".data
  name := "f".data
  co_posonlyargcount := 2
  co_argcount := 4
  co_kwonlyargcount := 2
  co_varnames := ["a".data, "b".data, "c".data, "d".data, "e".data, "f".data]

/-- Witness for C1 at the spec's example: `f(1,2,c=3,d=4,e=5,f=6)` and
`f(1,2,3,d=4,e=5,f=6)` produce the same key, and that key is the literal
given by the spec and by `tests/test_caching.py`. -/
theorem key_from_function_call_binding_invariant_witness :
    key_from_function_call fSig natStr [1, 2]
        [("c".data, 3), ("d".data, 4), ("e".data, 5), ("f".data, 6)]
      = key_from_function_call fSig natStr [1, 2, 3]
        [("d".data, 4), ("e".data, 5), ("f".data, 6)]
    ∧ key_from_function_call fSig natStr [1, 2]
        [("c".data, 3), ("d".data, 4), ("e".data, 5), ("f".data, 6)]
      = "test_caching.f:?:1:::2:&:f=6:::e=5:::d=4:::c=3".data := by
  constructor
  · exact key_from_function_call_binding_invariant fSig natStr [1, 2, 3, 4, 5, 6] 2 3
      [("c".data, 3), ("d".data, 4), ("e".data, 5), ("f".data, 6)]
      [("d".data, 4), ("e".data, 5), ("f".data, 6)]
      (by decide) (by decide) (by decide) (by decide) (by decide) (by decide)
      (by decide) (by decide) (by decide) (by decide)
  · decide

/-- The code object of a function `f(a, b=2)` in a module `mod`: a
defaults-eligible signature, on which positional and keyword forms of the
same effective binding diverge. -/
def fDefaultsSig : FuncCode where
  module := "mod".data
  name := "f".data
  co_posonlyargcount := 0
  co_argcount := 2
  co_kwonlyargcount := 0
  co_varnames := ["a".data, "b".data]

/-- C1 counterexample to the claim as stated: it quantifies over every two
call forms that bind to the same effective parameters, which includes
defaults-eligible partial calls. For `f(a, b=2)`, the calls `f(1)` and
`f(a=1)` both bind `a = 1` (and `b` to its default), yet the rebinding
walk pops the lone positional `1` into the slot of the LAST parameter `b`,
so `f(1)` encodes to `mod.f:?::&:b=1` while `f(a=1)` encodes to
`mod.f:?::&:a=1` — the keys differ (and the first one even records a wrong
binding). -/
theorem key_from_function_call_binding_invariant_counterexample :
    key_from_function_call fDefaultsSig natStr [1] [] = "mod.f:?::&:b=1".data
    ∧ key_from_function_call fDefaultsSig natStr [] [("a".data, 1)] = "mod.f:?::&:a=1".data
    ∧ key_from_function_call fDefaultsSig natStr [1] []
        ≠ key_from_function_call fDefaultsSig natStr [] [("a".data, 1)] := by
  refine ⟨by decide, by decide, by decide⟩

/-- C7 (amended): `Cache.key_from_function_call` is total. When more
positional arguments are supplied than the signature can absorb, no error
is raised: the rebinding walk moves the trailing `nargs - npos` positional
arguments into the keyword dict (pairing them with the declared parameter
names from the last backwards), and all excess positional arguments remain
in the positional segment of the key. The `IndexError` that
`Cache.__call__` translates into a `TypeError` cannot arise: the only pop
in `all_as_kwargs` catches it. -/
theorem key_from_function_call_excess_positional {V : Type} (func : FuncCode)
    (toStr : V → List Char) (args : List V)
    (hvn : func.co_argcount + func.co_kwonlyargcount ≤ func.co_varnames.length)
    (hnp : func.co_posonlyargcount ≤ func.co_argcount + func.co_kwonlyargcount)
    (hlen : func.co_argcount + func.co_kwonlyargcount ≤ args.length) :
    key_from_function_call func toStr args []
      = (func.module ++ '.' :: func.name) ++ fun_sep
        ++ joinSep param_sep ((args.take (args.length
            - (func.co_argcount + func.co_kwonlyargcount - func.co_posonlyargcount))).map toStr)
        ++ type_sep
        ++ joinSep param_sep
          ((((func.co_varnames.take (func.co_argcount + func.co_kwonlyargcount)).reverse.zip
              args.reverse).take
            (func.co_argcount + func.co_kwonlyargcount - func.co_posonlyargcount)).map
            (fun p => p.1 ++ '=' :: toStr p.2)) := by
  have hplen : ((func.co_varnames.take (func.co_argcount + func.co_kwonlyargcount))).length
      = func.co_argcount + func.co_kwonlyargcount := by
    simp [Nat.min_eq_left hvn]
  simp only [key_from_function_call]
  have hB := loop_pop_phase func.co_posonlyargcount
    (func.co_argcount + func.co_kwonlyargcount) ([] : List (List Char × V))
    (func.co_argcount + func.co_kwonlyargcount - func.co_posonlyargcount)
    ((func.co_varnames.take (func.co_argcount + func.co_kwonlyargcount)).reverse)
    args.reverse []
    (fun _ _ => rfl)
    (by simp; omega)
    (by simp [hplen])
    (by simp; omega)
  rw [List.reverse_reverse] at hB
  rw [hB, List.drop_reverse, List.reverse_reverse]
  simp

/-- C7 counterexample to the claim as stated: calling the test function
`f(a, b, /, c, d, *, e, f)` (six declared parameters) with seven
positional arguments does not fail — both exceptions inside
`Cache.key_from_function_call` are caught — and instead yields a normal
key whose positional segment keeps the three excess-and-positional-only
values. -/
theorem key_from_function_call_excess_positional_counterexample :
    key_from_function_call fSig natStr [1, 2, 3, 4, 5, 6, 7] []
      = "test_caching.f:?:1:::2:::3:&:f=7:::e=6:::d=5:::c=4".data := by
  decide

/-- Witness for the amended C7 theorem at the same concrete call. -/
theorem key_from_function_call_excess_positional_witness :
    key_from_function_call fSig natStr [1, 2, 3, 4, 5, 6, 7] []
      = (fSig.module ++ '.' :: fSig.name) ++ fun_sep
        ++ joinSep param_sep (([1, 2, 3].map natStr))
        ++ type_sep
        ++ joinSep param_sep
          (([("f".data, (7 : Nat)), ("e".data, 6), ("d".data, 5), ("c".data, 4)]).map
            (fun p => p.1 ++ '=' :: natStr p.2)) := by
  have h := key_from_function_call_excess_positional fSig natStr [1, 2, 3, 4, 5, 6, 7]
    (by decide) (by decide) (by decide)
  simpa using h

/-! ### Decoding keys: `Cache.function_call_from_key` -/

/-- Python's `s.split(sep)` for a non-empty separator `s0 :: stail`, over
character lists: scan left to right; wherever the separator is a prefix,
emit the accumulated piece and skip the separator, otherwise consume one
character. -/
def pySplit (s0 : Char) (stail : List Char) : List Char → List (List Char)
  | [] => [[]]
  | c :: cs =>
    if (s0 :: stail).isPrefixOf (c :: cs) then
      [] :: pySplit s0 stail (cs.drop stail.length)
    else
      match pySplit s0 stail cs with
      | [] => [[c]]
      | r :: rs => (c :: r) :: rs
termination_by l => l.length
decreasing_by
  · simp [List.length_drop]; omega
  · simp

/-- Python's `s.split(sep, 1)` for the one-character separator `'='`, as
used on each `"k=v"` piece; `none` models the piece holding no `'='`, in
which case the `dict(...)` constructor in the source raises. -/
def splitEq : List Char → Option (List Char × List Char)
  | [] => none
  | c :: cs =>
    if c = '=' then some ([], cs)
    else (splitEq cs).map (fun p => (c :: p.1, p.2))

/-- The `dict(map(lambda s: s.split('=', 1), kwargs_tuple))` step: every
piece must contain an `'='`; insertion order is kept. -/
def splitEqAll : List (List Char) → Option (List (List Char × List Char))
  | [] => some []
  | s :: rest =>
    match splitEq s, splitEqAll rest with
    | some p, some ps => some (p :: ps)
    | _, _ => none

/-- Embedding of `Cache.function_call_from_key`. The tuple unpackings
`prefix, rest = key.split(...)` raise `ValueError` unless the split gives
exactly two pieces, and building the kwargs dict raises when a piece has
no `'='`; those failure modes are `none`. `map(str, ...)` on the argument
pieces is the identity. -/
def function_call_from_key (key : List Char) :
    Option (List Char × List (List Char) × List (List Char × List Char)) :=
  match pySplit ':' ['?', ':'] key with
  | [qualName, rest] =>
    match pySplit ':' ['&', ':'] rest with
    | [argstr, kwargstr] =>
      let args := (pySplit ':' [':', ':'] argstr).filter (fun s => !s.isEmpty)
      let kwargs_tuple := (pySplit ':' [':', ':'] kwargstr).filter (fun s => !s.isEmpty)
      match splitEqAll kwargs_tuple with
      | some kwpairs => some (qualName, args, kwpairs)
      | none => none
    | _ => none
  | _ => none

lemma pySplit_nil (s0 : Char) (stail : List Char) : pySplit s0 stail [] = [[]] := by
  rw [pySplit]

lemma pySplit_sep_cons (s0 : Char) (stail rest : List Char) :
    pySplit s0 stail ((s0 :: stail) ++ rest) = [] :: pySplit s0 stail rest := by
  rw [List.cons_append, pySplit, if_pos (by
    exact List.isPrefixOf_iff_prefix.mpr ⟨rest, by simp⟩)]
  rw [List.drop_left]

lemma pySplit_ne_nil (s0 : Char) (stail : List Char) (l : List Char) :
    pySplit s0 stail l ≠ [] := by
  cases l with
  | nil => simp [pySplit_nil]
  | cons c cs =>
    rw [pySplit]
    split
    · simp
    · rcases h : pySplit s0 stail cs with _ | ⟨r, rs⟩ <;> simp

/-- Scanning a piece in which the separator matches at no position leaves
the piece attached to the head of the remaining split. -/
lemma pySplit_no_match (s0 : Char) (stail : List Char) (p rest : List Char)
    (h : ∀ q r, p = q ++ r → r ≠ [] → ¬ ((s0 :: stail).isPrefixOf (r ++ rest) = true)) :
    pySplit s0 stail (p ++ rest) = (pySplit s0 stail rest).modifyHead (fun r => p ++ r) := by
  induction p with
  | nil =>
    rcases hr : pySplit s0 stail rest with _ | ⟨r0, rs⟩
    · exact absurd hr (pySplit_ne_nil s0 stail rest)
    · simp [hr]
  | cons c p ih =>
    rw [List.cons_append, pySplit,
      if_neg (by simpa using h [] (c :: p) rfl (by simp))]
    rw [ih (fun q r hqr hrne => h (c :: q) r (by rw [hqr, List.cons_append]) hrne)]
    rcases hr : pySplit s0 stail rest with _ | ⟨r0, rs⟩
    · exact absurd hr (pySplit_ne_nil s0 stail rest)
    · simp

lemma no_match_of_head (s0 : Char) (stail p rest : List Char) (hp : s0 ∉ p) :
    ∀ q r, p = q ++ r → r ≠ [] → ¬ ((s0 :: stail).isPrefixOf (r ++ rest) = true) := by
  intro q r hqr hrne hpre
  cases r with
  | nil => exact hrne rfl
  | cons d r2 =>
    rw [List.cons_append] at hpre
    simp only [List.isPrefixOf, Bool.and_eq_true, beq_iff_eq] at hpre
    exact hp (by rw [hqr, hpre.1]; simp)

lemma no_match_of_second (s0 c1 : Char) (stail p rest : List Char)
    (hp : c1 ∉ p) (hrest : ∀ d, rest.head? = some d → d ≠ c1) :
    ∀ q r, p = q ++ r → r ≠ [] → ¬ ((s0 :: c1 :: stail).isPrefixOf (r ++ rest) = true) := by
  intro q r hqr hrne hpre
  cases r with
  | nil => exact hrne rfl
  | cons d r2 =>
    cases r2 with
    | nil =>
      rw [List.cons_append, List.nil_append] at hpre
      cases rest with
      | nil => simp [List.isPrefixOf] at hpre
      | cons e rest2 =>
        simp only [List.isPrefixOf, Bool.and_eq_true, beq_iff_eq] at hpre
        exact hrest e rfl hpre.2.1.symm
    | cons d2 r3 =>
      rw [List.cons_append, List.cons_append] at hpre
      simp only [List.isPrefixOf, Bool.and_eq_true, beq_iff_eq] at hpre
      exact hp (by rw [hqr, hpre.2.1]; simp)

lemma pySplit_single (s0 : Char) (stail b : List Char)
    (hb : ∀ q r, b = q ++ r → r ≠ [] → ¬ ((s0 :: stail).isPrefixOf (r ++ ([] : List Char)) = true)) :
    pySplit s0 stail b = [b] := by
  have h := pySplit_no_match s0 stail b [] hb
  simpa [pySplit_nil] using h

lemma pySplit_two (s0 : Char) (stail a b : List Char)
    (ha : ∀ q r, a = q ++ r → r ≠ [] →
      ¬ ((s0 :: stail).isPrefixOf (r ++ ((s0 :: stail) ++ b)) = true))
    (hb : ∀ q r, b = q ++ r → r ≠ [] →
      ¬ ((s0 :: stail).isPrefixOf (r ++ ([] : List Char)) = true)) :
    pySplit s0 stail (a ++ (s0 :: stail) ++ b) = [a, b] := by
  rw [List.append_assoc, pySplit_no_match s0 stail a _ ha, pySplit_sep_cons,
    pySplit_single s0 stail b hb]
  simp

lemma joinSep_cons_cons (sep p p2 : List Char) (ps2 : List (List Char)) :
    joinSep sep (p :: p2 :: ps2) = p ++ sep ++ joinSep sep (p2 :: ps2) := rfl

/-- Splitting a separator-join of pieces that avoid the separator's first
character recovers the pieces. -/
lemma pySplit_parts (s0 : Char) (stail : List Char) :
    ∀ (ps : List (List Char)), ps ≠ [] → (∀ p ∈ ps, s0 ∉ p) →
    pySplit s0 stail (joinSep (s0 :: stail) ps) = ps := by
  intro ps
  induction ps with
  | nil => intro h _; exact absurd rfl h
  | cons p ps ih =>
    intro _ hfree
    cases ps with
    | nil =>
      rw [joinSep, pySplit_single s0 stail p
        (no_match_of_head s0 stail p [] (hfree p (by simp)))]
    | cons p2 ps2 =>
      rw [joinSep_cons_cons, List.append_assoc,
        pySplit_no_match s0 stail p _
          (no_match_of_head s0 stail p _ (hfree p (by simp))),
        pySplit_sep_cons,
        ih (List.cons_ne_nil _ _) (fun q hq => hfree q (List.mem_cons_of_mem _ hq))]
      simp

/-- Strings rendered into a cache key must avoid the characters of the
three separators for the key to be parseable; the spec requires separators
to be "distinct from any expected argument content". -/
def sepFree (l : List Char) : Prop := ':' ∉ l ∧ '?' ∉ l ∧ '&' ∉ l

instance (l : List Char) : Decidable (sepFree l) := by
  unfold sepFree
  infer_instance

lemma splitEq_append (nm val : List Char) (h : '=' ∉ nm) :
    splitEq (nm ++ '=' :: val) = some (nm, val) := by
  induction nm with
  | nil => simp [splitEq]
  | cons c nm ih =>
    simp only [List.mem_cons, not_or] at h
    rw [List.cons_append, splitEq, if_neg (fun hc => h.1 hc.symm), ih h.2]
    rfl

lemma splitEqAll_map (pl : List (List Char × List Char)) (h : ∀ p ∈ pl, '=' ∉ p.1) :
    splitEqAll (pl.map (fun p => p.1 ++ '=' :: p.2)) = some pl := by
  induction pl with
  | nil => rfl
  | cons p pl ih =>
    rw [List.map_cons, splitEqAll, splitEq_append p.1 p.2 (h p (by simp)),
      ih (fun q hq => h q (List.mem_cons_of_mem _ hq))]

lemma lookupName_some_mem {V : Type} : ∀ (pl : List (List Char × V)) (n : List Char) (v : V),
    lookupName pl n = some v → (n, v) ∈ pl := by
  intro pl
  induction pl with
  | nil => intro n v h; cases h
  | cons p rest ih =>
    intro n v h
    rw [lookupName] at h
    by_cases hc : p.1 = n
    · rw [if_pos hc] at h
      obtain ⟨pn, pv⟩ := p
      obtain rfl : pv = v := by simpa using h
      obtain rfl : pn = n := hc
      exact List.mem_cons_self ..
    · rw [if_neg hc] at h
      exact List.mem_cons_of_mem _ (ih n v h)

lemma mem_joinSep {c : Char} (sep : List Char) :
    ∀ (ps : List (List Char)), c ∈ joinSep sep ps → c ∈ sep ∨ ∃ p ∈ ps, c ∈ p := by
  intro ps
  induction ps with
  | nil => intro h; simp [joinSep] at h
  | cons p ps ih =>
    cases ps with
    | nil =>
      intro h
      exact Or.inr ⟨p, by simp, by simpa [joinSep] using h⟩
    | cons p2 ps2 =>
      intro h
      rw [joinSep_cons_cons] at h
      rcases List.mem_append.mp h with h1 | h2
      · rcases List.mem_append.mp h1 with ha | hb
        · exact Or.inr ⟨p, by simp, ha⟩
        · exact Or.inl hb
      · rcases ih h2 with h3 | ⟨q, hq, hcq⟩
        · exact Or.inl h3
        · exact Or.inr ⟨q, List.mem_cons_of_mem _ hq, hcq⟩

lemma filter_nonempty_eq_self (ps : List (List Char)) (h : ∀ p ∈ ps, p ≠ []) :
    ps.filter (fun s => !s.isEmpty) = ps := by
  induction ps with
  | nil => rfl
  | cons p ps ih =>
    rw [List.filter_cons, if_pos (by simpa using h p (by simp)),
      ih (fun q hq => h q (List.mem_cons_of_mem _ hq))]

/-- Every value in the rebinding loop's outputs comes from the call's
inputs (popped positional values or keyword-dict values), and every bound
name is one of the walked parameter names. -/
lemma all_as_kwargs_mem {V : Type} (npos nargs : Nat) (kwargs : List (List Char × V)) :
    ∀ (names : List (List Char)) (in_args : List V) (ik : List (List Char × V)),
    (∀ v ∈ (all_as_kwargs npos nargs kwargs names in_args ik).1, v ∈ in_args) ∧
    (∀ p ∈ (all_as_kwargs npos nargs kwargs names in_args ik).2,
      p ∈ ik ∨ (p.1 ∈ names ∧ (p.2 ∈ in_args ∨ ∃ q ∈ kwargs, q.2 = p.2))) := by
  intro names
  induction names with
  | nil => intro in_args ik; exact ⟨fun v hv => hv, fun p hp => Or.inl hp⟩
  | cons vn rest ih =>
    intro in_args ik
    simp only [all_as_kwargs]
    cases hl : lookupName kwargs vn with
    | some v =>
      refine ⟨fun w hw => (ih in_args (ik ++ [(vn, v)])).1 w hw, fun p hp => ?_⟩
      rcases (ih in_args (ik ++ [(vn, v)])).2 p hp with hik | ⟨h1, h2⟩
      · rcases List.mem_append.mp hik with hik | hik
        · exact Or.inl hik
        · obtain rfl : p = (vn, v) := by simpa using hik
          exact Or.inr ⟨by simp, Or.inr ⟨(vn, v), lookupName_some_mem kwargs vn v hl, rfl⟩⟩
      · exact Or.inr ⟨List.mem_cons_of_mem _ h1, h2⟩
    | none =>
      by_cases hcap : nargs - ik.length = npos
      · rw [if_pos hcap]
        exact ⟨fun v hv => hv, fun p hp => Or.inl hp⟩
      · rw [if_neg hcap]
        cases hlast : in_args.getLast? with
        | some v =>
          refine ⟨fun w hw => ?_, fun p hp => ?_⟩
          · exact (List.dropLast_sublist in_args).subset
              ((ih in_args.dropLast (ik ++ [(vn, v)])).1 w hw)
          · rcases (ih in_args.dropLast (ik ++ [(vn, v)])).2 p hp with hik | ⟨h1, h2⟩
            · rcases List.mem_append.mp hik with hik | hik
              · exact Or.inl hik
              · obtain rfl : p = (vn, v) := by simpa using hik
                exact Or.inr ⟨by simp,
                  Or.inl (List.mem_of_mem_getLast? hlast)⟩
            · refine Or.inr ⟨List.mem_cons_of_mem _ h1, ?_⟩
              rcases h2 with h2 | h2
              · exact Or.inl ((List.dropLast_sublist in_args).subset h2)
              · exact Or.inr h2
        | none =>
          refine ⟨fun w hw => (ih in_args ik).1 w hw, fun p hp => ?_⟩
          rcases (ih in_args ik).2 p hp with hik | ⟨h1, h2⟩
          · exact Or.inl hik
          · exact Or.inr ⟨List.mem_cons_of_mem _ h1, h2⟩

/-- Decoding a key of the canonical layout recovers its three components,
provided the qualified name and every rendered piece avoid the separator
characters, the positional pieces are non-empty, and the keyword names are
non-empty and free of `'='` (keyword values may be empty — the piece
`"k="` still parses). The empty positional/keyword segments decode back to
the empty tuple/dict. -/
lemma function_call_from_key_layout (qualName : List Char) (ia : List (List Char))
    (ikl : List (List Char × List Char))
    (hq : sepFree qualName)
    (hia : ∀ p ∈ ia, p ≠ [] ∧ sepFree p)
    (hik : ∀ p ∈ ikl, (p.1 ≠ [] ∧ sepFree p.1 ∧ '=' ∉ p.1) ∧ sepFree p.2) :
    function_call_from_key (qualName ++ fun_sep
        ++ joinSep param_sep ia ++ type_sep
        ++ joinSep param_sep (ikl.map (fun p => p.1 ++ '=' :: p.2)))
      = some (qualName, ia, ikl) := by
  obtain ⟨hq1, hq2, hq3⟩ := hq
  have hiaC : ∀ p ∈ ia, ':' ∉ p ∧ '?' ∉ p ∧ '&' ∉ p := fun p hp => (hia p hp).2
  have hiklC : ∀ p ∈ ikl.map (fun p => p.1 ++ '=' :: p.2), ':' ∉ p ∧ '?' ∉ p ∧ '&' ∉ p := by
    intro p hp
    rcases List.mem_map.mp hp with ⟨q, hq4, rfl⟩
    obtain ⟨⟨_, ⟨h2a, h2b, h2c⟩, _⟩, ⟨h4a, h4b, h4c⟩⟩ := hik q hq4
    refine ⟨?_, ?_, ?_⟩
    · simp only [List.mem_append, List.mem_cons, not_or]
      exact ⟨h2a, by decide, h4a⟩
    · simp only [List.mem_append, List.mem_cons, not_or]
      exact ⟨h2b, by decide, h4b⟩
    · simp only [List.mem_append, List.mem_cons, not_or]
      exact ⟨h2c, by decide, h4c⟩
  have hAq : '?' ∉ joinSep param_sep ia := fun hc => by
    rcases mem_joinSep param_sep ia hc with h | ⟨p, hp, hcp⟩
    · simp [param_sep] at h
    · exact (hiaC p hp).2.1 hcp
  have hAa : '&' ∉ joinSep param_sep ia := fun hc => by
    rcases mem_joinSep param_sep ia hc with h | ⟨p, hp, hcp⟩
    · simp [param_sep] at h
    · exact (hiaC p hp).2.2 hcp
  have hKq : '?' ∉ joinSep param_sep (ikl.map (fun p => p.1 ++ '=' :: p.2)) := fun hc => by
    rcases mem_joinSep param_sep _ hc with h | ⟨p, hp, hcp⟩
    · simp [param_sep] at h
    · exact (hiklC p hp).2.1 hcp
  have hKa : '&' ∉ joinSep param_sep (ikl.map (fun p => p.1 ++ '=' :: p.2)) := fun hc => by
    rcases mem_joinSep param_sep _ hc with h | ⟨p, hp, hcp⟩
    · simp [param_sep] at h
    · exact (hiklC p hp).2.2 hcp
  have hmidq : '?' ∉ joinSep param_sep ia ++ type_sep
      ++ joinSep param_sep (ikl.map (fun p => p.1 ++ '=' :: p.2)) := by
    simp only [List.mem_append, not_or]
    exact ⟨⟨hAq, by decide⟩, hKq⟩
  -- first split, on fun_sep
  have hs1 : pySplit ':' ['?', ':']
      (qualName ++ fun_sep ++ joinSep param_sep ia ++ type_sep
        ++ joinSep param_sep (ikl.map (fun p => p.1 ++ '=' :: p.2)))
      = [qualName, joinSep param_sep ia ++ type_sep
          ++ joinSep param_sep (ikl.map (fun p => p.1 ++ '=' :: p.2))] := by
    rw [show qualName ++ fun_sep ++ joinSep param_sep ia ++ type_sep
          ++ joinSep param_sep (ikl.map (fun p => p.1 ++ '=' :: p.2))
        = qualName ++ fun_sep ++ (joinSep param_sep ia ++ type_sep
          ++ joinSep param_sep (ikl.map (fun p => p.1 ++ '=' :: p.2)))
      by simp [List.append_assoc]]
    exact pySplit_two ':' ['?', ':'] qualName _
      (no_match_of_second ':' '?' [':'] qualName _ hq2
        (fun d hd => by simp at hd; subst hd; decide))
      (no_match_of_second ':' '?' [':'] _ [] hmidq (fun d hd => by simp at hd))
  -- second split, on type_sep
  have hs2 : pySplit ':' ['&', ':']
      (joinSep param_sep ia ++ type_sep
        ++ joinSep param_sep (ikl.map (fun p => p.1 ++ '=' :: p.2)))
      = [joinSep param_sep ia,
          joinSep param_sep (ikl.map (fun p => p.1 ++ '=' :: p.2))] :=
    pySplit_two ':' ['&', ':'] (joinSep param_sep ia) _
      (no_match_of_second ':' '&' [':'] _ _ hAa
        (fun d hd => by simp at hd; subst hd; decide))
      (no_match_of_second ':' '&' [':'] _ [] hKa (fun d hd => by simp at hd))
  -- third split, on param_sep, positional segment
  have hs3 : (pySplit ':' [':', ':'] (joinSep param_sep ia)).filter
      (fun s => !s.isEmpty) = ia := by
    cases ia with
    | nil =>
      rw [show joinSep param_sep [] = [] from rfl, pySplit_nil]
      rfl
    | cons p0 ia2 =>
      rw [show param_sep = ':' :: [':', ':'] from rfl,
        pySplit_parts ':' [':', ':'] (p0 :: ia2) (List.cons_ne_nil _ _)
          (fun p hp => (hiaC p hp).1)]
      exact filter_nonempty_eq_self _ (fun p hp => (hia p hp).1)
  -- fourth split, on param_sep, keyword segment
  have hs4 : (pySplit ':' [':', ':']
      (joinSep param_sep (ikl.map (fun p => p.1 ++ '=' :: p.2)))).filter
      (fun s => !s.isEmpty) = ikl.map (fun p => p.1 ++ '=' :: p.2) := by
    cases hi : ikl.map (fun p => p.1 ++ '=' :: p.2) with
    | nil =>
      rw [show joinSep param_sep [] = [] from rfl, pySplit_nil]
      rfl
    | cons p0 ps2 =>
      rw [show param_sep = ':' :: [':', ':'] from rfl,
        pySplit_parts ':' [':', ':'] (p0 :: ps2) (List.cons_ne_nil _ _)
          (fun p hp => (hiklC p (hi ▸ hp)).1)]
      refine filter_nonempty_eq_self _ (fun p hp => ?_)
      rcases List.mem_map.mp (hi ▸ hp) with ⟨q, _, rfl⟩
      simp
  have hs5 : splitEqAll (ikl.map (fun p => p.1 ++ '=' :: p.2)) = some ikl :=
    splitEqAll_map ikl (fun p hp => (hik p hp).1.2.2)
  simp only [function_call_from_key, hs1, hs2, hs3, hs4, hs5]

/-- C9 (amended): decoding inverts encoding — recovering the qualified
name, the remaining positional arguments left by the rebinding walk, and
the effective keyword dict, every value in its string rendering, with
empty segments decoding to the empty tuple/dict — provided the qualified
name, the rendered values and the parameter names contain none of the
separator characters `':'`, `'?'`, `'&'`, the rendered positional values
are non-empty and the parameter names are non-empty and `'='`-free. -/
theorem function_call_from_key_inverts {V : Type} (func : FuncCode)
    (toStr : V → List Char) (args : List V) (kwargs : List (List Char × V))
    (hq : sepFree (func.module ++ '.' :: func.name))
    (hargs : ∀ v ∈ args, toStr v ≠ [] ∧ sepFree (toStr v))
    (hkwv : ∀ p ∈ kwargs, sepFree (toStr p.2))
    (hnames : ∀ n ∈ func.co_varnames, n ≠ [] ∧ sepFree n ∧ '=' ∉ n) :
    function_call_from_key (key_from_function_call func toStr args kwargs)
      = some (func.module ++ '.' :: func.name,
        (all_as_kwargs func.co_posonlyargcount (func.co_argcount + func.co_kwonlyargcount)
          kwargs ((func.co_varnames.take (func.co_argcount + func.co_kwonlyargcount)).reverse)
          args []).1.map toStr,
        (all_as_kwargs func.co_posonlyargcount (func.co_argcount + func.co_kwonlyargcount)
          kwargs ((func.co_varnames.take (func.co_argcount + func.co_kwonlyargcount)).reverse)
          args []).2.map (fun p => (p.1, toStr p.2))) := by
  have hmem := all_as_kwargs_mem func.co_posonlyargcount
    (func.co_argcount + func.co_kwonlyargcount) kwargs
    ((func.co_varnames.take (func.co_argcount + func.co_kwonlyargcount)).reverse) args []
  have hlay := function_call_from_key_layout (func.module ++ '.' :: func.name)
    ((all_as_kwargs func.co_posonlyargcount (func.co_argcount + func.co_kwonlyargcount)
      kwargs ((func.co_varnames.take (func.co_argcount + func.co_kwonlyargcount)).reverse)
      args []).1.map toStr)
    ((all_as_kwargs func.co_posonlyargcount (func.co_argcount + func.co_kwonlyargcount)
      kwargs ((func.co_varnames.take (func.co_argcount + func.co_kwonlyargcount)).reverse)
      args []).2.map (fun p => (p.1, toStr p.2)))
    hq
    (by
      intro s hs
      rcases List.mem_map.mp hs with ⟨v, hv, rfl⟩
      exact hargs v (hmem.1 v hv))
    (by
      intro p hp
      rcases List.mem_map.mp hp with ⟨q, hq2, rfl⟩
      rcases hmem.2 q hq2 with hin | ⟨hn, hv⟩
      · cases hin
      · refine ⟨hnames q.1 ((List.take_sublist _ _).subset (List.mem_reverse.mp hn)), ?_⟩
        rcases hv with hv | ⟨q2, hq3, hqv⟩
        · exact (hargs q.2 hv).2
        · exact hqv ▸ hkwv q2 hq3)
  rw [key_from_function_call]
  rw [List.map_map] at hlay
  exact hlay

/-- Witness for the amended C9 theorem at the test function and the spec's
example call. -/
theorem function_call_from_key_inverts_witness :
    function_call_from_key (key_from_function_call fSig natStr [1, 2]
        [("c".data, 3), ("d".data, 4), ("e".data, 5), ("f".data, 6)])
      = some ("test_caching.f".data, ["1".data, "2".data],
          [("f".data, "6".data), ("e".data, "5".data),
            ("d".data, "4".data), ("c".data, "3".data)]) := by
  have h := function_call_from_key_inverts fSig natStr [1, 2]
    [("c".data, 3), ("d".data, 4), ("e".data, 5), ("f".data, 6)]
    (by decide) (by decide) (by decide) (by decide)
  exact h

/-- The code object of a function `g(a, /)` in a module `m`, used to
exhibit a separator collision inside an argument's string rendering. -/
def gSig : FuncCode where
  module := "m".data
  name := "g".data
  co_posonlyargcount := 1
  co_argcount := 1
  co_kwonlyargcount := 0
  co_varnames := ["a".data]

/-- C9 counterexample to the claim as stated ("for every function f, args
and kwargs"): when an argument's string rendering contains `PARAM_SEP`
(here the single positional argument `"x:::y"` of `g(a, /)`), decoding the
encoded key splits inside the value and recovers two positional arguments
`"x"`, `"y"` instead of the original one. -/
theorem function_call_from_key_inverts_counterexample :
    function_call_from_key (key_from_function_call gSig (fun v => v) ["x:::y".data] [])
      = some ("m.g".data, ["x".data, "y".data], [])
    ∧ function_call_from_key (key_from_function_call gSig (fun v => v) ["x:::y".data] [])
      ≠ some ("m.g".data, ["x:::y".data], []) := by
  constructor
  · simp [gSig, key_from_function_call, all_as_kwargs, lookupName, joinSep,
      fun_sep, type_sep, param_sep, function_call_from_key, pySplit,
      List.isPrefixOf, splitEq, splitEqAll]
  · simp [gSig, key_from_function_call, all_as_kwargs, lookupName, joinSep,
      fun_sep, type_sep, param_sep, function_call_from_key, pySplit,
      List.isPrefixOf, splitEq, splitEqAll]

/-! ## Key-value repositories (`src/omnidict/repositories.py`)

The embedding models `DictRepository` (the in-memory backend the claims
cite) together with the cross-cutting wrapping that
`KeyValueRepository.__init_subclass__` installs around every concrete
`__getitem__`/`__setitem__`/`__delitem__`: key customization
(`prefix + key`), serialization and optional Fernet encryption. The wall
clock is an explicit `now : Nat` (seconds); Python exceptions become an
error component that also carries the state mutated before the raise. -/

/-- Keys are Python strings. -/
abbrev Key := List Char

/-- Model of `cryptography.fernet.Fernet` by its documented contract
(authenticated symmetric encryption): a token records the key that
produced it and decryption verifies it, failing loudly otherwise.
`KeyValueRepository.build_cipher` derives the Fernet key deterministically
from the passphrase (`random.seed(passphrase)`; `random.randbytes(32)`);
the derivation is modelled as injective (the identity), ignoring
astronomically unlikely PRNG seed-state collisions. -/
structure Fernet where
  key : List Char
deriving DecidableEq

/-- `KeyValueRepository.build_cipher`. -/
def build_cipher (passphrase : List Char) : Fernet := ⟨passphrase⟩

/-- A value as it sits in raw storage: serialized bytes (`B`), wrapped in
a Fernet token when the repository encrypts. -/
inductive Stored (B : Type)
  | plain (b : B)
  | token (key : List Char) (b : B)
deriving DecidableEq

/-- The exceptions the repository layer can raise. The first three are
`KeyError`s; `invalidToken` is `cryptography.fernet.InvalidToken` (wrong
key or non-token data); `valueError` is `json.loads`/`pickle.loads`
failing on ciphertext read without a cipher. -/
inductive RepoErr
  | keyNotFound
  | keyExpired
  | keyAlreadyStored
  | invalidToken
  | valueError
deriving DecidableEq

/-- Which exceptions `except KeyError` catches. -/
def RepoErr.isKeyError : RepoErr → Bool
  | .keyNotFound => true
  | .keyExpired => true
  | .keyAlreadyStored => true
  | .invalidToken => false
  | .valueError => false

/-- Construction-time configuration of a `DictRepository`: `prefix`
(field `pfx`), `expire_seconds`, the cipher derived from a non-empty
passphrase (`none` when encryption is off), the `default` fallback
(Python installs `lambda _: None` when absent — claims about that case
instantiate `V` with an `Option` type), and the serializer pair
`serialize_val`/`unserialize_val`. -/
structure RepoCfg (V B : Type) where
  pfx : Key
  expire_seconds : Nat
  cipher : Option Fernet
  dflt : Key → V
  ser : V → B
  unser : B → V

/-- Mutable state of a `DictRepository`: the `storage` dict and the
`expire_storage` dict of tracked expiry timestamps. -/
structure DictSt (B : Type) where
  storage : Key → Option (Stored B)
  expire_storage : Key → Option Nat

def DictSt.empty {B : Type} : DictSt B := ⟨fun _ => none, fun _ => none⟩

/-- Python dict assignment. -/
def upd {A : Type} (m : Key → Option A) (k : Key) (a : A) : Key → Option A :=
  fun k2 => if k2 = k then some a else m k2

/-- Python dict deletion / `pop(key, None)`. -/
def del {A : Type} (m : Key → Option A) (k : Key) : Key → Option A :=
  fun k2 => if k2 = k then none else m k2

/-- `DictRepository._expire`: a no-op when TTL is disabled, otherwise
track `now + expire_seconds` for `key`. -/
def dict_expire_mark {V B : Type} (cfg : RepoCfg V B) (st : DictSt B) (now : Nat)
    (key : Key) : DictSt B :=
  if cfg.expire_seconds ≤ 0 then st
  else { st with expire_storage := upd st.expire_storage key (now + cfg.expire_seconds) }

/-- The compound expiry test of `DictRepository.__getitem__`:
`self.expire_seconds > 0 and (ttl := self.expire_storage.get(key)) is not
None and ttl < _now()`. -/
def dict_expired {B : Type} (expire_seconds : Nat) (st : DictSt B) (now : Nat)
    (key : Key) : Bool :=
  0 < expire_seconds &&
    (match st.expire_storage key with
      | some ttl => decide (ttl < now)
      | none => false)

/-- `DictRepository.__delitem__` (raw): delete or raise `KeyError`; on
success the expiry record is dropped too. -/
def dict_delitem_raw {B : Type} (st : DictSt B) (key : Key) :
    Except RepoErr Unit × DictSt B :=
  match st.storage key with
  | none => (.error .keyNotFound, st)
  | some _ => (.ok (),
      { storage := del st.storage key, expire_storage := del st.expire_storage key })

/-- `DictRepository.__getitem__` (raw). On a tracked-and-elapsed expiry it
runs `del self[key]` — which dispatches to the wrapped `__delitem__`
installed by `__init_subclass__` and therefore applies `customize_key` a
second time — then raises `KeyError('has expired')`; an exception from the
inner delete propagates first. Otherwise the hit refreshes the expiry
window (`self._expire(key)`: sliding TTL). -/
def dict_getitem_raw {V B : Type} (cfg : RepoCfg V B) (st : DictSt B) (now : Nat)
    (key : Key) : Except RepoErr (Stored B) × DictSt B :=
  match st.storage key with
  | none => (.error .keyNotFound, st)
  | some value =>
    if dict_expired cfg.expire_seconds st now key then
      match dict_delitem_raw st (cfg.pfx ++ key) with
      | (.ok _, st2) => (.error .keyExpired, st2)
      | (.error e, st2) => (.error e, st2)
    else
      (.ok value, dict_expire_mark cfg st now key)

/-- `DictRepository.__setitem__` (raw): insert-only, then `_expire`. -/
def dict_setitem_raw {V B : Type} (cfg : RepoCfg V B) (st : DictSt B) (now : Nat)
    (key : Key) (value : Stored B) : Except RepoErr Unit × DictSt B :=
  match st.storage key with
  | some _ => (.error .keyAlreadyStored, st)
  | none =>
    (.ok (), dict_expire_mark cfg { st with storage := upd st.storage key value } now key)

/-- The read-side transform of the wrapped `__getitem__`:
`unserialize_val(raw)` without a cipher, `unserialize_val(cipher.decrypt(raw))`
with one. Decrypting with the wrong Fernet key — or any bytes that are not
a token of that key — raises `InvalidToken`; deserializing token bytes
without a cipher fails (not a `KeyError`). -/
def load_val {V B : Type} (cfg : RepoCfg V B) : Stored B → Except RepoErr V
  | .plain b =>
    match cfg.cipher with
    | none => .ok (cfg.unser b)
    | some _ => .error .invalidToken
  | .token k b =>
    match cfg.cipher with
    | none => .error .valueError
    | some c => if k = c.key then .ok (cfg.unser b) else .error .invalidToken

/-- The write-side transform of the wrapped `__setitem__`:
`serialize_val(value)`, encrypted when a cipher is set. -/
def store_val {V B : Type} (cfg : RepoCfg V B) (v : V) : Stored B :=
  match cfg.cipher with
  | none => .plain (cfg.ser v)
  | some c => .token c.key (cfg.ser v)

/-- Wrapped `__delitem__` (`__init_subclass__`): key customization then the
raw delete. -/
def dict_delitem {V B : Type} (cfg : RepoCfg V B) (st : DictSt B) (key : Key) :
    Except RepoErr Unit × DictSt B :=
  dict_delitem_raw st (cfg.pfx ++ key)

/-- Wrapped `__getitem__` (`__init_subclass__`): key customization, raw
read, decryption and deserialization. -/
def dict_getitem {V B : Type} (cfg : RepoCfg V B) (st : DictSt B) (now : Nat)
    (key : Key) : Except RepoErr V × DictSt B :=
  match dict_getitem_raw cfg st now (cfg.pfx ++ key) with
  | (.ok s, st2) => (load_val cfg s, st2)
  | (.error e, st2) => (.error e, st2)

/-- Wrapped `__setitem__` (`__init_subclass__`): key customization,
serialization, encryption, raw insert. -/
def dict_setitem {V B : Type} (cfg : RepoCfg V B) (st : DictSt B) (now : Nat)
    (key : Key) (v : V) : Except RepoErr Unit × DictSt B :=
  dict_setitem_raw cfg st now (cfg.pfx ++ key) (store_val cfg v)

/-- `KeyValueRepository.delete`: the idempotent convenience wrapper,
swallowing `KeyError` (the raw delete's error path leaves the state
untouched). -/
def repo_delete {V B : Type} (cfg : RepoCfg V B) (st : DictSt B) (key : Key) : DictSt B :=
  (dict_delitem cfg st key).2

/-- `KeyValueRepository.get` with an explicit default function (the
decorator temporarily swaps `repository.default` for `lambda _: None`):
`KeyError` becomes the default, any other exception propagates. -/
def repo_get_with_default {V B : Type} (cfg : RepoCfg V B) (d : Key → V) (st : DictSt B)
    (now : Nat) (key : Key) : Except RepoErr V × DictSt B :=
  match dict_getitem cfg st now key with
  | (.ok v, st2) => (.ok v, st2)
  | (.error e, st2) => if e.isKeyError then (.ok (d key), st2) else (.error e, st2)

/-- `KeyValueRepository.get`. -/
def repo_get {V B : Type} (cfg : RepoCfg V B) (st : DictSt B) (now : Nat) (key : Key) :
    Except RepoErr V × DictSt B :=
  repo_get_with_default cfg cfg.dflt st now key

/-- `KeyValueRepository.set`: the delete-then-set overwrite wrapper over
the strict insert-only primitive. -/
def repo_set {V B : Type} (cfg : RepoCfg V B) (st : DictSt B) (now : Nat) (key : Key)
    (v : V) : Except RepoErr Unit × DictSt B :=
  dict_setitem cfg (repo_delete cfg st key) now key v

/-! ### The get/set/delete contract -/

lemma upd_self {A : Type} (m : Key → Option A) (k : Key) (a : A) : upd m k a k = some a := by
  simp [upd]

lemma del_self {A : Type} (m : Key → Option A) (k : Key) : del m k k = none := by
  simp [del]

lemma repo_delete_absent {V B : Type} (cfg : RepoCfg V B) (st : DictSt B) (k : Key) :
    (repo_delete cfg st k).storage (cfg.pfx ++ k) = none := by
  unfold repo_delete dict_delitem dict_delitem_raw
  cases h : st.storage (cfg.pfx ++ k) <;> simp [h, del]

/-- The overwrite `set` always succeeds: the preceding `delete` guarantees
the insert-only primitive sees the key absent. -/
lemma repo_set_eq {V B : Type} (cfg : RepoCfg V B) (st : DictSt B) (now : Nat) (k : Key)
    (v : V) :
    repo_set cfg st now k v
      = (.ok (), dict_expire_mark cfg
          { repo_delete cfg st k with
            storage := upd (repo_delete cfg st k).storage (cfg.pfx ++ k) (store_val cfg v) }
          now (cfg.pfx ++ k)) := by
  unfold repo_set dict_setitem dict_setitem_raw
  rw [repo_delete_absent]

lemma load_store {V B : Type} (cfg : RepoCfg V B) (hround : ∀ w, cfg.unser (cfg.ser w) = w)
    (v : V) : load_val cfg (store_val cfg v) = .ok v := by
  unfold load_val store_val
  cases cfg.cipher with
  | none => simp [hround]
  | some c => simp [hround]

lemma dict_expire_mark_storage {V B : Type} (cfg : RepoCfg V B) (st : DictSt B) (now : Nat)
    (key : Key) : (dict_expire_mark cfg st now key).storage = st.storage := by
  unfold dict_expire_mark
  split <;> rfl

lemma dict_expire_mark_expire_pos {V B : Type} (cfg : RepoCfg V B) (st : DictSt B)
    (now : Nat) (key : Key) (he : 0 < cfg.expire_seconds) :
    (dict_expire_mark cfg st now key).expire_storage
      = upd st.expire_storage key (now + cfg.expire_seconds) := by
  unfold dict_expire_mark
  rw [if_neg (by omega)]

/-- An entry whose window was just refreshed at `now` is not elapsed at
`now`. -/
lemma dict_expired_after_mark {V B : Type} (cfg : RepoCfg V B) (st : DictSt B) (now : Nat)
    (key : Key) :
    dict_expired cfg.expire_seconds (dict_expire_mark cfg st now key) now key = false := by
  unfold dict_expired
  by_cases he : 0 < cfg.expire_seconds
  · rw [dict_expire_mark_expire_pos cfg st now key he]
    have hlt : ¬ (now + cfg.expire_seconds < now) := by omega
    simp [upd_self, hlt]
  · simp [show cfg.expire_seconds = 0 by omega]

/-- A raw read of a present, non-elapsed entry returns it and refreshes
the window. -/
lemma dict_getitem_raw_hit {V B : Type} (cfg : RepoCfg V B) (st : DictSt B) (now : Nat)
    (key : Key) (s : Stored B)
    (hs : st.storage key = some s)
    (hexp : dict_expired cfg.expire_seconds st now key = false) :
    dict_getitem_raw cfg st now key = (.ok s, dict_expire_mark cfg st now key) := by
  unfold dict_getitem_raw
  rw [hs, hexp]
  simp

lemma dict_getitem_hit {V B : Type} (cfg : RepoCfg V B) (st : DictSt B) (now : Nat)
    (k : Key) (s : Stored B)
    (hs : st.storage (cfg.pfx ++ k) = some s)
    (hexp : dict_expired cfg.expire_seconds st now (cfg.pfx ++ k) = false) :
    dict_getitem cfg st now k
      = (load_val cfg s, dict_expire_mark cfg st now (cfg.pfx ++ k)) := by
  unfold dict_getitem
  rw [dict_getitem_raw_hit cfg st now _ s hs hexp]

lemma repo_get_after_set {V B : Type} (cfg : RepoCfg V B)
    (hround : ∀ w, cfg.unser (cfg.ser w) = w)
    (st : DictSt B) (now : Nat) (k : Key) (v : V) :
    (repo_get cfg (repo_set cfg st now k v).2 now k).1 = .ok v := by
  rw [repo_set_eq]
  have hs : (dict_expire_mark cfg
      { repo_delete cfg st k with
        storage := upd (repo_delete cfg st k).storage (cfg.pfx ++ k) (store_val cfg v) }
      now (cfg.pfx ++ k)).storage (cfg.pfx ++ k) = some (store_val cfg v) := by
    rw [dict_expire_mark_storage]
    exact upd_self _ _ _
  have hexp := dict_expired_after_mark cfg
    { repo_delete cfg st k with
      storage := upd (repo_delete cfg st k).storage (cfg.pfx ++ k) (store_val cfg v) }
    now (cfg.pfx ++ k)
  unfold repo_get repo_get_with_default
  rw [dict_getitem_hit cfg _ now k _ hs hexp, load_store cfg hround v]

/-- C2: for every repository configuration (any prefix, TTL, cipher with a
sound serializer pair) — after the convenience `set(k, v)`, `get(k)`
returns `v` (the wrapper deletes first, giving overwrite semantics over
the strict primitive, so `set` itself succeeds from any state); a second
primitive `__setitem__` on the now-present key fails with the
`AlreadyExists` `KeyError`; the primitive `__delitem__` on an absent key
raises the `NotFound` `KeyError`; and the convenience `delete` wrapper on
an absent key is an idempotent no-op. -/
theorem repo_set_get_delete_contract {V B : Type} (cfg : RepoCfg V B)
    (hround : ∀ w, cfg.unser (cfg.ser w) = w)
    (st st0 : DictSt B) (now : Nat) (k : Key) (v v2 : V)
    (habs : st0.storage (cfg.pfx ++ k) = none) :
    (repo_set cfg st now k v).1 = .ok ()
    ∧ (repo_get cfg (repo_set cfg st now k v).2 now k).1 = .ok v
    ∧ (dict_setitem cfg (repo_set cfg st now k v).2 now k v2).1
        = .error .keyAlreadyStored
    ∧ dict_delitem cfg st0 k = (.error .keyNotFound, st0)
    ∧ repo_delete cfg st0 k = st0 := by
  have habs2 : dict_delitem cfg st0 k = (.error .keyNotFound, st0) := by
    unfold dict_delitem dict_delitem_raw
    rw [habs]
  refine ⟨by rw [repo_set_eq], repo_get_after_set cfg hround st now k v, ?_, habs2, ?_⟩
  · rw [repo_set_eq]
    unfold dict_setitem dict_setitem_raw
    rw [show (dict_expire_mark cfg
        { repo_delete cfg st k with
          storage := upd (repo_delete cfg st k).storage (cfg.pfx ++ k) (store_val cfg v) }
        now (cfg.pfx ++ k)).storage (cfg.pfx ++ k) = some (store_val cfg v) by
      rw [dict_expire_mark_storage]
      exact upd_self _ _ _]
  · unfold repo_delete
    rw [habs2]

/-- Witness for C2 at a concrete prefixed repository with TTL on. -/
theorem repo_set_get_delete_contract_witness :
    (repo_set (RepoCfg.mk "p:".data 1 none (fun _ => 0) id id) DictSt.empty 5 "a".data 7).1
        = .ok ()
    ∧ (repo_get (RepoCfg.mk "p:".data 1 none (fun _ => 0) id id)
        (repo_set (RepoCfg.mk "p:".data 1 none (fun _ => 0) id id)
          DictSt.empty 5 "a".data 7).2 5 "a".data).1 = .ok 7
    ∧ (dict_setitem (RepoCfg.mk "p:".data 1 none (fun _ => 0) id id)
        (repo_set (RepoCfg.mk "p:".data 1 none (fun _ => 0) id id)
          DictSt.empty 5 "a".data 7).2 5 "a".data 8).1 = .error .keyAlreadyStored
    ∧ dict_delitem (RepoCfg.mk "p:".data 1 none (fun _ => 0) id id) DictSt.empty "a".data
        = (.error .keyNotFound, DictSt.empty)
    ∧ repo_delete (RepoCfg.mk "p:".data 1 none (fun _ => 0) id id) DictSt.empty "a".data
        = DictSt.empty :=
  repo_set_get_delete_contract (RepoCfg.mk "p:".data 1 none (fun _ => 0) id id)
    (fun _ => rfl) DictSt.empty DictSt.empty 5 "a".data 7 8 rfl

/-! ### Sliding TTL -/

/-- C3 (amended): sliding TTL as implemented. (a) With TTL on, every
successful read resets the tracked window to `now + expire_seconds`
(sliding, any prefix). (b) With an empty prefix, a read performed strictly
after the tracked timestamp purges the entry and raises the expiry
`KeyError` — the convenience `get` reports the default; at exactly
`expire_seconds` elapsed the entry is still served (`ttl < now` is
strict — covered by (a)). (c) With `expire_seconds = 0` entries never
expire and a read leaves the state untouched. (d) With a non-empty prefix
the elapsed entry is reported as a `KeyError` but NOT purged: the internal
`del self[key]` re-applies `customize_key` and targets the doubly-prefixed
key, whose (generic) absence makes the delete raise `NotFound` and leaves
the elapsed entry in place. -/
theorem sliding_ttl {V B : Type} (cfg : RepoCfg V B) (st : DictSt B) (now : Nat)
    (k : Key) (s : Stored B) (t : Nat) :
    (0 < cfg.expire_seconds →
      st.storage (cfg.pfx ++ k) = some s →
      dict_expired cfg.expire_seconds st now (cfg.pfx ++ k) = false →
      (dict_getitem cfg st now k).1 = load_val cfg s
      ∧ (dict_getitem cfg st now k).2.expire_storage (cfg.pfx ++ k)
          = some (now + cfg.expire_seconds))
    ∧ (cfg.pfx = [] → 0 < cfg.expire_seconds →
      st.storage k = some s → st.expire_storage k = some t → t < now →
      (dict_getitem cfg st now k).1 = (.error .keyExpired : Except RepoErr V)
      ∧ (dict_getitem cfg st now k).2.storage k = none
      ∧ (repo_get cfg st now k).1 = .ok (cfg.dflt k))
    ∧ (cfg.expire_seconds = 0 →
      st.storage (cfg.pfx ++ k) = some s →
      dict_getitem cfg st now k = (load_val cfg s, st))
    ∧ (0 < cfg.expire_seconds →
      st.storage (cfg.pfx ++ k) = some s →
      st.expire_storage (cfg.pfx ++ k) = some t → t < now →
      st.storage (cfg.pfx ++ (cfg.pfx ++ k)) = none →
      dict_getitem cfg st now k = ((.error .keyNotFound : Except RepoErr V), st)) := by
  refine ⟨fun he hs hexp => ?_, fun hp he hs ht hlt => ?_, fun he hs => ?_,
    fun he hs ht hlt hdd => ?_⟩
  · rw [dict_getitem_hit cfg st now k s hs hexp]
    refine ⟨rfl, ?_⟩
    rw [dict_expire_mark_expire_pos cfg st now _ he]
    exact upd_self _ _ _
  · have hexp : dict_expired cfg.expire_seconds st now k = true := by
      unfold dict_expired
      rw [ht]
      simp [he, hlt]
    have hget : dict_getitem cfg st now k
        = (.error .keyExpired, ⟨del st.storage k, del st.expire_storage k⟩) := by
      unfold dict_getitem dict_getitem_raw dict_delitem_raw
      rw [hp, List.nil_append, hs, hexp]
      simp [hs]
    refine ⟨by rw [hget], by rw [hget]; exact del_self _ _, ?_⟩
    unfold repo_get repo_get_with_default
    rw [hget]
    rfl
  · have hexp : dict_expired cfg.expire_seconds st now (cfg.pfx ++ k) = false := by
      unfold dict_expired
      rw [he]
      rfl
    rw [dict_getitem_hit cfg st now k s hs hexp]
    unfold dict_expire_mark
    rw [if_pos (by omega)]
  · have hexp : dict_expired cfg.expire_seconds st now (cfg.pfx ++ k) = true := by
      unfold dict_expired
      rw [ht]
      simp [he, hlt]
    unfold dict_getitem dict_getitem_raw dict_delitem_raw
    rw [hs, hexp, hdd]
    simp

/-- C3 counterexample to the claim as stated, in two parts. With prefix
`"p:"` and `expire_seconds = 1`: the entry `a` (stored at time 0, window
tracked as 1) read at time 5 is reported gone but is NOT purged — the
claim's "purges the entry" fails. With the empty prefix and
`expire_seconds = 1`: reading at time 1 — exactly `expireSeconds` elapsed
since the write — still returns the value, while the claim's "at least
expireSeconds have elapsed" demands `NotFound`. -/
theorem sliding_ttl_counterexample :
    ((dict_getitem (RepoCfg.mk "p:".data 1 none (fun _ => 0) id id)
        (DictSt.mk (fun k2 => if k2 = "p:a".data then some (.plain (7 : Nat)) else none)
          (fun k2 => if k2 = "p:a".data then some 1 else none))
        5 "a".data).2.storage "p:a".data = some (.plain 7)
      ∧ (dict_getitem (RepoCfg.mk "p:".data 1 none (fun _ => 0) id id)
        (DictSt.mk (fun k2 => if k2 = "p:a".data then some (.plain (7 : Nat)) else none)
          (fun k2 => if k2 = "p:a".data then some 1 else none))
        5 "a".data).1 = .error .keyNotFound)
    ∧ (repo_get (RepoCfg.mk ([] : Key) 1 none (fun _ => 0) id id)
        (DictSt.mk (fun k2 => if k2 = "a".data then some (.plain (7 : Nat)) else none)
          (fun k2 => if k2 = "a".data then some 1 else none))
        1 "a".data).1 = .ok 7 := by
  refine ⟨⟨?_, ?_⟩, ?_⟩ <;> rfl

/-- Witness for the amended C3 theorem, exercising all four conjuncts at
concrete repositories: (a) the spec's 60-second scenario — a read at 40
seconds returns the value and slides the window to 100; (b) empty prefix,
elapsed entry: expiry `KeyError`, entry purged, `get` reports the default;
(c) TTL disabled: the read returns the value and leaves the state
untouched; (d) prefix `"p:"`, elapsed entry: `KeyError` but the entry
survives. -/
theorem sliding_ttl_witness :
    ((dict_getitem (RepoCfg.mk "p:".data 60 none (fun _ => 0) id id)
        (DictSt.mk (fun k2 => if k2 = "p:a".data then some (.plain (7 : Nat)) else none)
          (fun k2 => if k2 = "p:a".data then some 60 else none))
        40 "a".data).1 = .ok 7
      ∧ (dict_getitem (RepoCfg.mk "p:".data 60 none (fun _ => 0) id id)
        (DictSt.mk (fun k2 => if k2 = "p:a".data then some (.plain (7 : Nat)) else none)
          (fun k2 => if k2 = "p:a".data then some 60 else none))
        40 "a".data).2.expire_storage "p:a".data = some 100)
    ∧ ((dict_getitem (RepoCfg.mk ([] : Key) 1 none (fun _ => 0) id id)
        (DictSt.mk (fun k2 => if k2 = "a".data then some (.plain (7 : Nat)) else none)
          (fun k2 => if k2 = "a".data then some 1 else none))
        5 "a".data).1 = .error .keyExpired
      ∧ (dict_getitem (RepoCfg.mk ([] : Key) 1 none (fun _ => 0) id id)
        (DictSt.mk (fun k2 => if k2 = "a".data then some (.plain (7 : Nat)) else none)
          (fun k2 => if k2 = "a".data then some 1 else none))
        5 "a".data).2.storage "a".data = none
      ∧ (repo_get (RepoCfg.mk ([] : Key) 1 none (fun _ => 0) id id)
        (DictSt.mk (fun k2 => if k2 = "a".data then some (.plain (7 : Nat)) else none)
          (fun k2 => if k2 = "a".data then some 1 else none))
        5 "a".data).1 = .ok 0)
    ∧ dict_getitem (RepoCfg.mk "p:".data 0 none (fun _ => 0) id id)
        (DictSt.mk (fun k2 => if k2 = "p:a".data then some (.plain (7 : Nat)) else none)
          (fun _ => none))
        99 "a".data
        = (.ok 7, DictSt.mk
            (fun k2 => if k2 = "p:a".data then some (.plain (7 : Nat)) else none)
            (fun _ => none))
    ∧ dict_getitem (RepoCfg.mk "p:".data 1 none (fun _ => 0) id id)
        (DictSt.mk (fun k2 => if k2 = "p:a".data then some (.plain (7 : Nat)) else none)
          (fun k2 => if k2 = "p:a".data then some 1 else none))
        5 "a".data
        = (.error .keyNotFound, DictSt.mk
            (fun k2 => if k2 = "p:a".data then some (.plain (7 : Nat)) else none)
            (fun k2 => if k2 = "p:a".data then some 1 else none)) := by
  refine ⟨?_, ?_, ?_, ?_⟩
  · have h := (sliding_ttl (RepoCfg.mk "p:".data 60 none (fun _ => 0) id id)
      (DictSt.mk (fun k2 => if k2 = "p:a".data then some (.plain (7 : Nat)) else none)
        (fun k2 => if k2 = "p:a".data then some 60 else none))
      40 "a".data (.plain 7) 60).1 (by decide) rfl rfl
    exact ⟨h.1.trans rfl, h.2⟩
  · exact (sliding_ttl (RepoCfg.mk ([] : Key) 1 none (fun _ => 0) id id)
      (DictSt.mk (fun k2 => if k2 = "a".data then some (.plain (7 : Nat)) else none)
        (fun k2 => if k2 = "a".data then some 1 else none))
      5 "a".data (.plain 7) 1).2.1 rfl (by decide) rfl rfl (by decide)
  · exact (sliding_ttl (RepoCfg.mk "p:".data 0 none (fun _ => 0) id id)
      (DictSt.mk (fun k2 => if k2 = "p:a".data then some (.plain (7 : Nat)) else none)
        (fun _ => none))
      99 "a".data (.plain 7) 0).2.2.1 rfl rfl
  · exact (sliding_ttl (RepoCfg.mk "p:".data 1 none (fun _ => 0) id id)
      (DictSt.mk (fun k2 => if k2 = "p:a".data then some (.plain (7 : Nat)) else none)
        (fun k2 => if k2 = "p:a".data then some 1 else none))
      5 "a".data (.plain 7) 1).2.2.2 (by decide) rfl rfl (by decide) rfl

/-! ### Encryption -/

/-- C4: for every repository configuration, a value stored under
passphrase `P1` round-trips through a cipher rebuilt from `P1`, while
reading it through a cipher rebuilt from any `P2 ≠ P1` deterministically
raises `IntegrityError` (`cryptography.fernet.InvalidToken`) — the
convenience `get` does not catch it (it only catches `KeyError`), so a
wrong seed never silently returns wrong plaintext. -/
theorem encrypted_wrong_passphrase {V B : Type} (pfx : Key) (e : Nat) (d : Key → V)
    (ser : V → B) (unser : B → V) (hround : ∀ w, unser (ser w) = w)
    (P1 P2 : List Char) (hne : P2 ≠ P1)
    (st : DictSt B) (now : Nat) (k : Key) (v : V) :
    (repo_get (RepoCfg.mk pfx e (some (build_cipher P1)) d ser unser)
        (repo_set (RepoCfg.mk pfx e (some (build_cipher P1)) d ser unser) st now k v).2
        now k).1 = .ok v
    ∧ (repo_get (RepoCfg.mk pfx e (some (build_cipher P2)) d ser unser)
        (repo_set (RepoCfg.mk pfx e (some (build_cipher P1)) d ser unser) st now k v).2
        now k).1 = .error .invalidToken := by
  constructor
  · exact repo_get_after_set _ hround st now k v
  · rw [repo_set_eq]
    have hs : (dict_expire_mark (RepoCfg.mk pfx e (some (build_cipher P1)) d ser unser)
        { repo_delete (RepoCfg.mk pfx e (some (build_cipher P1)) d ser unser) st k with
          storage := upd (repo_delete (RepoCfg.mk pfx e (some (build_cipher P1)) d ser unser)
            st k).storage (pfx ++ k)
            (store_val (RepoCfg.mk pfx e (some (build_cipher P1)) d ser unser) v) }
        now (pfx ++ k)).storage (pfx ++ k)
        = some (store_val (RepoCfg.mk pfx e (some (build_cipher P1)) d ser unser) v) := by
      rw [dict_expire_mark_storage]
      exact upd_self _ _ _
    have hexp := dict_expired_after_mark
      (RepoCfg.mk pfx e (some (build_cipher P1)) d ser unser)
      { repo_delete (RepoCfg.mk pfx e (some (build_cipher P1)) d ser unser) st k with
        storage := upd (repo_delete (RepoCfg.mk pfx e (some (build_cipher P1)) d ser unser)
          st k).storage (pfx ++ k)
          (store_val (RepoCfg.mk pfx e (some (build_cipher P1)) d ser unser) v) }
      now (pfx ++ k)
    unfold repo_get repo_get_with_default
    rw [dict_getitem_hit (RepoCfg.mk pfx e (some (build_cipher P2)) d ser unser) _ now k _
      hs hexp]
    have hload : load_val (RepoCfg.mk pfx e (some (build_cipher P2)) d ser unser)
        (store_val (RepoCfg.mk pfx e (some (build_cipher P1)) d ser unser) v)
        = (.error .invalidToken : Except RepoErr V) := by
      have hne2 : ¬ P1 = P2 := fun h => hne h.symm
      unfold load_val store_val build_cipher
      simp [hne2]
    rw [hload]
    rfl

/-- Witness for C4 at concrete passphrases "P1" and "P2". -/
theorem encrypted_wrong_passphrase_witness :
    (repo_get (RepoCfg.mk "p:".data 1 (some (build_cipher "P1".data)) (fun _ => 0) id id)
        (repo_set (RepoCfg.mk "p:".data 1 (some (build_cipher "P1".data)) (fun _ => 0) id id)
          DictSt.empty 5 "a".data (1 : Nat)).2
        5 "a".data).1 = .ok 1
    ∧ (repo_get (RepoCfg.mk "p:".data 1 (some (build_cipher "P2".data)) (fun _ => 0) id id)
        (repo_set (RepoCfg.mk "p:".data 1 (some (build_cipher "P1".data)) (fun _ => 0) id id)
          DictSt.empty 5 "a".data (1 : Nat)).2
        5 "a".data).1 = .error .invalidToken :=
  encrypted_wrong_passphrase "p:".data 1 (fun _ => 0) id id (fun _ => rfl)
    "P1".data "P2".data (by decide) DictSt.empty 5 "a".data 1

/-! ## The memoizing decorator (`Cache.__call__` in `src/omnidict/caching.py`)

The wrapped function's results are Python objects that may be `None`, and
the decorator compares its lookup result against `None`, so the decorator
claims are stated over the value type `Option α` (`none` is Python's
`None`). The result is paired with a `Bool` recording whether the wrapped
function's body ran during the call. -/

/-- Embedding of `inner_func`: build the cache key (total — the
`except IndexError` in the source is unreachable); unless `ignore_cache`,
look the key up with `repository.default` temporarily swapped for
`lambda _: None` (an `ignore_cache` call skips the lookup — modelled by
feeding the sentinel `None` straight through, which leaves the state
untouched exactly as the source does); a non-`None` lookup result is
returned without running the body; otherwise run the body, and store the
result via the overwriting `repository.set` when the validator accepts
it. -/
def inner_func {α B : Type} (cfg : RepoCfg (Option α) B) (validate : Option α → Bool)
    (func : FuncCode) (toStr : Option α → List Char)
    (f : List (Option α) → List (List Char × Option α) → Option α)
    (st : DictSt B) (now : Nat)
    (args : List (Option α)) (kwargs : List (List Char × Option α))
    (ignore_cache : Bool) :
    Except RepoErr (Option α × Bool) × DictSt B :=
  let cache_key := key_from_function_call func toStr args kwargs
  match (if ignore_cache then ((.ok none : Except RepoErr (Option α)), st)
      else repo_get_with_default cfg (fun _ => none) st now cache_key) with
  | (.error e, st2) => (.error e, st2)
  | (.ok (some x), st2) => (.ok (some x, false), st2)
  | (.ok none, st2) =>
    let result := f args kwargs
    if validate result then
      match repo_set cfg st2 now cache_key result with
      | (.ok _, st3) => (.ok (result, true), st3)
      | (.error e, st3) => (.error e, st3)
    else
      (.ok (result, true), st2)

lemma repo_get_with_default_miss {V B : Type} (cfg : RepoCfg V B) (d : Key → V)
    (st : DictSt B) (now : Nat) (key : Key)
    (habs : st.storage (cfg.pfx ++ key) = none) :
    repo_get_with_default cfg d st now key = (.ok (d key), st) := by
  unfold repo_get_with_default dict_getitem dict_getitem_raw
  rw [habs]
  rfl

lemma repo_set_storage_self {V B : Type} (cfg : RepoCfg V B) (st : DictSt B) (now : Nat)
    (k : Key) (v : V) :
    ((repo_set cfg st now k v).2).storage (cfg.pfx ++ k) = some (store_val cfg v) := by
  rw [repo_set_eq]
  simp [dict_expire_mark_storage, upd_self]

lemma repo_set_expired_false {V B : Type} (cfg : RepoCfg V B) (st : DictSt B) (now : Nat)
    (k : Key) (v : V) :
    dict_expired cfg.expire_seconds ((repo_set cfg st now k v).2) now (cfg.pfx ++ k)
      = false := by
  rw [repo_set_eq]
  exact dict_expired_after_mark cfg _ now _

lemma repo_get_with_default_after_set {V B : Type} (cfg : RepoCfg V B) (d : Key → V)
    (hround : ∀ w, cfg.unser (cfg.ser w) = w) (st : DictSt B) (now : Nat) (k : Key)
    (v : V) :
    repo_get_with_default cfg d (repo_set cfg st now k v).2 now k
      = (.ok v, dict_expire_mark cfg (repo_set cfg st now k v).2 now (cfg.pfx ++ k)) := by
  unfold repo_get_with_default
  rw [dict_getitem_hit cfg _ now k _ (repo_set_storage_self cfg st now k v)
    (repo_set_expired_false cfg st now k v), load_store cfg hround v]

/-- A lookup that yields a cached non-`None` value is returned without
running the body. -/
lemma inner_func_hit {α B : Type} (cfg : RepoCfg (Option α) B) (validate : Option α → Bool)
    (func : FuncCode) (toStr : Option α → List Char)
    (f : List (Option α) → List (List Char × Option α) → Option α)
    (st : DictSt B) (now : Nat) (args : List (Option α))
    (kwargs : List (List Char × Option α)) (x : α) (st2 : DictSt B)
    (hget : repo_get_with_default cfg (fun _ => none) st now
        (key_from_function_call func toStr args kwargs) = (.ok (some x), st2)) :
    inner_func cfg validate func toStr f st now args kwargs false
      = (.ok (some x, false), st2) := by
  simp only [inner_func, Bool.false_eq_true, if_false, hget]

/-- A call that skips the cache always runs the body and returns its
result (the store, when the validator accepts, always succeeds). -/
lemma inner_func_ignore_cache {α B : Type} (cfg : RepoCfg (Option α) B)
    (validate : Option α → Bool) (func : FuncCode) (toStr : Option α → List Char)
    (f : List (Option α) → List (List Char × Option α) → Option α)
    (st : DictSt B) (now : Nat) (args : List (Option α))
    (kwargs : List (List Char × Option α)) :
    (inner_func cfg validate func toStr f st now args kwargs true).1
      = .ok (f args kwargs, true) := by
  by_cases hv : validate (f args kwargs)
  · simp only [inner_func, if_true, hv, repo_set_eq]
  · simp only [inner_func, if_true, hv, Bool.false_eq_true, if_false]

/-- A call that misses the cache runs the body; when the validator
accepts, the result is stored through the overwriting `set`. -/
lemma inner_func_miss_store {α B : Type} (cfg : RepoCfg (Option α) B)
    (validate : Option α → Bool) (func : FuncCode) (toStr : Option α → List Char)
    (f : List (Option α) → List (List Char × Option α) → Option α)
    (st : DictSt B) (now : Nat) (args : List (Option α))
    (kwargs : List (List Char × Option α))
    (habs : st.storage (cfg.pfx ++ key_from_function_call func toStr args kwargs) = none)
    (hval : validate (f args kwargs) = true) :
    inner_func cfg validate func toStr f st now args kwargs false
      = (.ok (f args kwargs, true),
          (repo_set cfg st now (key_from_function_call func toStr args kwargs)
            (f args kwargs)).2) := by
  simp only [inner_func, Bool.false_eq_true, if_false,
    repo_get_with_default_miss cfg (fun _ => none) st now
      (key_from_function_call func toStr args kwargs) habs,
    hval, if_true, repo_set_eq]

/-- C5 (amended): for every decorated function — (1) the first call with
given arguments (key absent) runs the body exactly once and, when the
validator accepts, stores the result; (2) a subsequent call whose
arguments bind to the same cache key is answered from the cache without
running the body, PROVIDED the cached result is not `None` (`None` is the
decorator's miss sentinel, see the C10 theorem); (3) a call with
`ignore_cache=True` always runs the body; (4) with a validator that always
rejects, a call from a key-absent state runs the body and leaves the
repository state completely unchanged, so starting from an empty
repository nothing is ever stored; (5) from the empty repository every
`get` yields only the default. -/
theorem decorator_memoization {α B : Type} (cfg : RepoCfg (Option α) B)
    (hround : ∀ w, cfg.unser (cfg.ser w) = w)
    (validate : Option α → Bool) (func : FuncCode) (toStr : Option α → List Char)
    (f : List (Option α) → List (List Char × Option α) → Option α)
    (st : DictSt B) (now : Nat) (args args2 : List (Option α))
    (kwargs kwargs2 : List (List Char × Option α))
    (habs : st.storage (cfg.pfx ++ key_from_function_call func toStr args kwargs) = none)
    (hkey : key_from_function_call func toStr args2 kwargs2
      = key_from_function_call func toStr args kwargs) :
    (validate (f args kwargs) = true →
      inner_func cfg validate func toStr f st now args kwargs false
        = (.ok (f args kwargs, true),
            (repo_set cfg st now (key_from_function_call func toStr args kwargs)
              (f args kwargs)).2))
    ∧ (validate (f args kwargs) = true → f args kwargs ≠ none →
      (inner_func cfg validate func toStr f
        (repo_set cfg st now (key_from_function_call func toStr args kwargs)
          (f args kwargs)).2
        now args2 kwargs2 false).1 = .ok (f args kwargs, false))
    ∧ (∀ st2 : DictSt B,
      (inner_func cfg validate func toStr f st2 now args kwargs true).1
        = .ok (f args kwargs, true))
    ∧ ((∀ w, validate w = false) →
      inner_func cfg validate func toStr f st now args kwargs false
        = (.ok (f args kwargs, true), st))
    ∧ (∀ k2, (repo_get cfg DictSt.empty now k2).1 = .ok (cfg.dflt k2)) := by
  refine ⟨fun hval => inner_func_miss_store cfg validate func toStr f st now args kwargs
      habs hval,
    fun hval hnn => ?_, fun st2 => inner_func_ignore_cache cfg validate func toStr f
      st2 now args kwargs, fun hvf => ?_, fun k2 => ?_⟩
  · cases hfa : f args kwargs with
    | none => exact absurd hfa hnn
    | some x =>
      have hget : repo_get_with_default cfg (fun _ => none)
          (repo_set cfg st now (key_from_function_call func toStr args kwargs)
            (f args kwargs)).2
          now (key_from_function_call func toStr args2 kwargs2)
          = (.ok (some x),
            dict_expire_mark cfg
              (repo_set cfg st now (key_from_function_call func toStr args kwargs)
                (f args kwargs)).2
              now (cfg.pfx ++ key_from_function_call func toStr args kwargs)) := by
        rw [hkey, repo_get_with_default_after_set cfg (fun _ => none) hround st now
          (key_from_function_call func toStr args kwargs) (f args kwargs), hfa]
      rw [hfa] at hget
      rw [inner_func_hit cfg validate func toStr f _ now args2 kwargs2 x _ hget]
  · simp only [inner_func, Bool.false_eq_true, if_false,
      repo_get_with_default_miss cfg (fun _ => none) st now
        (key_from_function_call func toStr args kwargs) habs,
      hvf (f args kwargs), if_false]
  · unfold repo_get
    rw [repo_get_with_default_miss cfg cfg.dflt DictSt.empty now k2 rfl]

/-- C5 counterexample to the claim as stated: a decorated function whose
(validator-accepted) result is `None` is cached, yet the next call with
the same arguments runs the body again — the cached entry exists and
passed the validator, but the claim's "returns the cached result without
re-executing f" fails, because `None` doubles as the miss sentinel. -/
theorem decorator_memoization_counterexample :
    (inner_func (RepoCfg.mk ([] : Key) 0 none (fun _ => none) id id) (fun _ => true)
        gSig (fun _ => "o".data) (fun _ _ => (none : Option Nat))
        DictSt.empty 0 [] [] false).2.storage "m.g:?::&:".data
      = some (.plain none)
    ∧ (inner_func (RepoCfg.mk ([] : Key) 0 none (fun _ => none) id id) (fun _ => true)
        gSig (fun _ => "o".data) (fun _ _ => (none : Option Nat))
        ((inner_func (RepoCfg.mk ([] : Key) 0 none (fun _ => none) id id) (fun _ => true)
          gSig (fun _ => "o".data) (fun _ _ => (none : Option Nat))
          DictSt.empty 0 [] [] false).2) 0 [] [] false).1
      = .ok (none, true) := by
  exact ⟨rfl, rfl⟩

/-- Witness for the amended C5 theorem at a concrete decorated function
returning `some 3`. -/
theorem decorator_memoization_witness :
    (inner_func (RepoCfg.mk ([] : Key) 0 none (fun _ => none) id id) (fun _ => true)
        gSig (fun _ => "o".data) (fun _ _ => (some 3 : Option Nat))
        DictSt.empty 0 [] [] false).1 = .ok (some 3, true)
    ∧ (inner_func (RepoCfg.mk ([] : Key) 0 none (fun _ => none) id id) (fun _ => true)
        gSig (fun _ => "o".data) (fun _ _ => (some 3 : Option Nat))
        (repo_set (RepoCfg.mk ([] : Key) 0 none (fun _ => none) id id) DictSt.empty 0
          "m.g:?::&:".data (some 3)).2 0 [] [] false).1 = .ok (some 3, false) := by
  have h := decorator_memoization (RepoCfg.mk ([] : Key) 0 none (fun _ => none) id id)
    (fun _ => rfl) (fun _ => true) gSig (fun _ => "o".data)
    (fun _ _ => (some 3 : Option Nat)) DictSt.empty 0 [] [] [] [] rfl rfl
  exact ⟨by rw [h.1 rfl], h.2.1 rfl (by decide)⟩

/-- C6 (amended): in `caching.Cache` nothing is evicted BEFORE the body
runs. On a call that proceeds to recomputation, eviction happens only as
part of storing a validator-accepted result (the convenience `set` is
delete-then-set), which does overwrite any pre-existing entry; when the
validator rejects the recomputed result, the repository state is left
completely unchanged, so a pre-existing (stale) entry for the key
remains. (The legacy variant `cache.py` does delete before calling the
body.) -/
theorem decorator_eviction {α B : Type} (cfg : RepoCfg (Option α) B)
    (validate : Option α → Bool) (func : FuncCode) (toStr : Option α → List Char)
    (f : List (Option α) → List (List Char × Option α) → Option α)
    (st : DictSt B) (now : Nat) (args : List (Option α))
    (kwargs : List (List Char × Option α)) :
    (validate (f args kwargs) = true →
      (inner_func cfg validate func toStr f st now args kwargs true).2.storage
        (cfg.pfx ++ key_from_function_call func toStr args kwargs)
        = some (store_val cfg (f args kwargs)))
    ∧ (validate (f args kwargs) = false →
      inner_func cfg validate func toStr f st now args kwargs true
        = (.ok (f args kwargs, true), st)) := by
  constructor
  · intro hv
    simp only [inner_func, if_true, hv, repo_set_eq]
    simp [dict_expire_mark_storage, upd_self]
  · intro hv
    simp only [inner_func, if_true, hv, Bool.false_eq_true, if_false]

/-- C6 counterexample to the claim as stated: the repository holds a
cached entry `some 7` for the key; a call with `ignore_cache=True` whose
recomputed result `some 5` the validator rejects leaves that stale entry
in place — the claim demands that no entry for the key remain. -/
theorem decorator_eviction_counterexample :
    (inner_func (RepoCfg.mk ([] : Key) 0 none (fun _ => none) id id)
        (fun w => w == some 7) gSig (fun _ => "o".data)
        (fun _ _ => (some 5 : Option Nat))
        (DictSt.mk (fun k2 => if k2 = "m.g:?::&:".data
          then some (.plain (some 7)) else none) (fun _ => none))
        0 [] [] true).2.storage "m.g:?::&:".data = some (.plain (some 7))
    ∧ (inner_func (RepoCfg.mk ([] : Key) 0 none (fun _ => none) id id)
        (fun w => w == some 7) gSig (fun _ => "o".data)
        (fun _ _ => (some 5 : Option Nat))
        (DictSt.mk (fun k2 => if k2 = "m.g:?::&:".data
          then some (.plain (some 7)) else none) (fun _ => none))
        0 [] [] true).1 = .ok (some 5, true) := by
  exact ⟨rfl, rfl⟩

/-- Witness for the amended C6 theorem: with an accepting validator the
recomputed result overwrites the pre-seeded entry; with a rejecting
validator the pre-seeded state survives unchanged. -/
theorem decorator_eviction_witness :
    (inner_func (RepoCfg.mk ([] : Key) 0 none (fun _ => none) id id)
        (fun _ => true) gSig (fun _ => "o".data) (fun _ _ => (some 5 : Option Nat))
        (DictSt.mk (fun k2 => if k2 = "m.g:?::&:".data
          then some (.plain (some 7)) else none) (fun _ => none))
        0 [] [] true).2.storage "m.g:?::&:".data = some (.plain (some 5))
    ∧ inner_func (RepoCfg.mk ([] : Key) 0 none (fun _ => none) id id)
        (fun w => w == some 7) gSig (fun _ => "o".data)
        (fun _ _ => (some 5 : Option Nat))
        (DictSt.mk (fun k2 => if k2 = "m.g:?::&:".data
          then some (.plain (some 7)) else none) (fun _ => none))
        0 [] [] true
      = (.ok (some 5, true),
          DictSt.mk (fun k2 => if k2 = "m.g:?::&:".data
            then some (.plain (some 7)) else none) (fun _ => none)) := by
  constructor
  · exact (decorator_eviction (RepoCfg.mk ([] : Key) 0 none (fun _ => none) id id)
      (fun _ => true) gSig (fun _ => "o".data) (fun _ _ => (some 5 : Option Nat))
      (DictSt.mk (fun k2 => if k2 = "m.g:?::&:".data
        then some (.plain (some 7)) else none) (fun _ => none)) 0 [] []).1 rfl
  · exact (decorator_eviction (RepoCfg.mk ([] : Key) 0 none (fun _ => none) id id)
      (fun w => w == some 7) gSig (fun _ => "o".data) (fun _ _ => (some 5 : Option Nat))
      (DictSt.mk (fun k2 => if k2 = "m.g:?::&:".data
        then some (.plain (some 7)) else none) (fun _ => none)) 0 [] []).2 rfl

/-- C10: the decorator's miss sentinel is `None`. (i) When the body
returns `None` and the validator accepts, the `None` IS stored in the
repository. (ii) Yet whenever the cached value for the key is `None`, a
later call with `ignore_cache=False` treats the lookup as a miss and runs
the body again: a cached `None` is never served from the cache. -/
theorem decorator_none_sentinel {α B : Type} (cfg : RepoCfg (Option α) B)
    (hround : ∀ w, cfg.unser (cfg.ser w) = w)
    (validate : Option α → Bool) (func : FuncCode) (toStr : Option α → List Char)
    (f : List (Option α) → List (List Char × Option α) → Option α)
    (st : DictSt B) (now : Nat) (args : List (Option α))
    (kwargs : List (List Char × Option α)) :
    (f args kwargs = none → validate none = true →
      st.storage (cfg.pfx ++ key_from_function_call func toStr args kwargs) = none →
      (inner_func cfg validate func toStr f st now args kwargs false).2.storage
        (cfg.pfx ++ key_from_function_call func toStr args kwargs)
        = some (store_val cfg none)
      ∧ (inner_func cfg validate func toStr f st now args kwargs false).1
        = .ok (none, true))
    ∧ (st.storage (cfg.pfx ++ key_from_function_call func toStr args kwargs)
        = some (store_val cfg none) →
      dict_expired cfg.expire_seconds st now
        (cfg.pfx ++ key_from_function_call func toStr args kwargs) = false →
      (inner_func cfg validate func toStr f st now args kwargs false).1
        = .ok (f args kwargs, true)) := by
  constructor
  · intro hnone hval habs
    have h := inner_func_miss_store cfg validate func toStr f st now args kwargs habs
      (by rw [hnone]; exact hval)
    rw [h, hnone]
    exact ⟨repo_set_storage_self cfg st now
      (key_from_function_call func toStr args kwargs) none, rfl⟩
  · intro hs hexp
    have hget : repo_get_with_default cfg (fun _ => none) st now
        (key_from_function_call func toStr args kwargs)
        = (.ok none, dict_expire_mark cfg st now
            (cfg.pfx ++ key_from_function_call func toStr args kwargs)) := by
      unfold repo_get_with_default
      rw [dict_getitem_hit cfg st now _ _ hs hexp, load_store cfg hround none]
    by_cases hv : validate (f args kwargs)
    · simp only [inner_func, Bool.false_eq_true, if_false, hget, hv, if_true, repo_set_eq]
    · simp only [inner_func, Bool.false_eq_true, if_false, hget, hv]

/-- Witness for C10: a decorated function returning `None` under an
always-true validator stores `None`, and a second identical call runs the
body again. -/
theorem decorator_none_sentinel_witness :
    (inner_func (RepoCfg.mk ([] : Key) 0 none (fun _ => none) id id) (fun _ => true)
        gSig (fun _ => "o".data) (fun _ _ => (none : Option Nat))
        DictSt.empty 0 [] [] false).2.storage "m.g:?::&:".data
      = some (.plain none)
    ∧ (inner_func (RepoCfg.mk ([] : Key) 0 none (fun _ => none) id id) (fun _ => true)
        gSig (fun _ => "o".data) (fun _ _ => (none : Option Nat))
        (DictSt.mk (fun k2 => if k2 = "m.g:?::&:".data then some (.plain none) else none)
          (fun _ => none)) 0 [] [] false).1 = .ok (none, true) := by
  constructor
  · exact ((decorator_none_sentinel (RepoCfg.mk ([] : Key) 0 none (fun _ => none) id id)
      (fun _ => rfl) (fun _ => true) gSig (fun _ => "o".data)
      (fun _ _ => (none : Option Nat)) DictSt.empty 0 [] []).1 rfl rfl rfl).1
  · exact (decorator_none_sentinel (RepoCfg.mk ([] : Key) 0 none (fun _ => none) id id)
      (fun _ => rfl) (fun _ => true) gSig (fun _ => "o".data)
      (fun _ _ => (none : Option Nat))
      (DictSt.mk (fun k2 => if k2 = "m.g:?::&:".data then some (.plain none) else none)
        (fun _ => none)) 0 [] []).2 rfl rfl

/-! ## `DefaultRepository` (`src/omnidict/repositories.py`)

`DefaultRepository` serializes with `pickle`. Its `__getitem__` computes a
missing value via `self[key] = self.default(key)` followed by
`return self[key]` — and both of those dispatch to the WRAPPED accessors
installed by `__init_subclass__`, so the recursive read applies
`customize_key` and `unserialize_val` again on top of the outer wrapped
call. Exhibiting the consequences needs Python's dynamic typing, so values
here are a concrete dynamic type: `pickled v` models the `bytes` that
`pickle.dumps(v)` produces, and `pickle.loads` of anything that is not
such bytes raises `TypeError`. -/

inductive PyObj
  | mkStr (s : List Char)
  | pickled (v : PyObj)
deriving DecidableEq

/-- `DefaultRepository.serialize_val` (`pickle.dumps`). -/
def pickle_dumps (v : PyObj) : PyObj := .pickled v

/-- The exceptions of the `DefaultRepository` model; `outOfFuel` is a
recursion-depth bookkeeping artifact of the embedding (never reached on
the runs below). -/
inductive DefErr
  | keyAlreadyStored
  | typeError
  | outOfFuel
deriving DecidableEq

/-- Which exceptions `except KeyError` catches. -/
def DefErr.isKeyError : DefErr → Bool
  | .keyAlreadyStored => true
  | .typeError => false
  | .outOfFuel => false

/-- `DefaultRepository.unserialize_val` (`pickle.loads`): a `TypeError` on
any object that is not pickled bytes. -/
def pickle_loads : PyObj → Except DefErr PyObj
  | .pickled v => .ok v
  | .mkStr _ => .error .typeError

/-- Constructor arguments of `DefaultRepository`: `prefix` and the
mandatory `default`. -/
structure DefCfg where
  pfx : Key
  dflt : Key → PyObj

/-- `DefaultRepository` owns a plain dict. -/
structure DefSt where
  storage : Key → Option PyObj

def DefSt.empty : DefSt := ⟨fun _ => none⟩

/-- `DefaultRepository.__setitem__` (raw): insert-only. -/
def defrepo_setitem_raw (st : DefSt) (key : Key) (value : PyObj) :
    Except DefErr Unit × DefSt :=
  match st.storage key with
  | some _ => (.error .keyAlreadyStored, st)
  | none => (.ok (), ⟨upd st.storage key value⟩)

/-- Wrapped `__setitem__` (`__init_subclass__`): customize the key and
pickle the value. -/
def defrepo_setitem (cfg : DefCfg) (st : DefSt) (key : Key) (v : PyObj) :
    Except DefErr Unit × DefSt :=
  defrepo_setitem_raw st (cfg.pfx ++ key) (pickle_dumps v)

/-- `DefaultRepository.__delitem__` (raw): `storage.pop(key, None)`, which
never raises. -/
def defrepo_delitem_raw (st : DefSt) (key : Key) : DefSt := ⟨del st.storage key⟩

/-- `DefaultRepository.__getitem__` (raw), by recursion depth: on a miss
it runs `self[key] = self.default(key)` and `return self[key]`, both
through the wrapped accessors — the recursive read prefixes the key again
and applies `pickle.loads` to whatever the raw read returns. -/
def defrepo_getitem_raw (cfg : DefCfg) : Nat → DefSt → Key → Except DefErr PyObj × DefSt
  | 0, st, _ => (.error .outOfFuel, st)
  | fuel + 1, st, key =>
    match st.storage key with
    | some v => (.ok v, st)
    | none =>
      match defrepo_setitem cfg st key (cfg.dflt key) with
      | (.error e, st1) => (.error e, st1)
      | (.ok _, st1) =>
        match defrepo_getitem_raw cfg fuel st1 (cfg.pfx ++ key) with
        | (.error e, st2) => (.error e, st2)
        | (.ok v, st2) =>
          match pickle_loads v with
          | .ok u => (.ok u, st2)
          | .error e => (.error e, st2)

/-- Wrapped `__getitem__` (`__init_subclass__`). -/
def defrepo_getitem (cfg : DefCfg) (fuel : Nat) (st : DefSt) (key : Key) :
    Except DefErr PyObj × DefSt :=
  match defrepo_getitem_raw cfg fuel st (cfg.pfx ++ key) with
  | (.ok v, st2) =>
    match pickle_loads v with
    | .ok u => (.ok u, st2)
    | .error e => (.error e, st2)
  | (.error e, st2) => (.error e, st2)

/-- `KeyValueRepository.get` on a `DefaultRepository`: only `KeyError` is
converted into the default. -/
def defrepo_get (cfg : DefCfg) (fuel : Nat) (st : DefSt) (key : Key) :
    Except DefErr PyObj × DefSt :=
  match defrepo_getitem cfg fuel st key with
  | (.ok v, st2) => (.ok v, st2)
  | (.error e, st2) =>
    if e.isKeyError then (.ok (cfg.dflt key), st2) else (.error e, st2)

/-- C8 (code bug): `DefaultRepository.get` on an absent key does not
return the computed default — it raises `TypeError`. The miss path stores
`pickle.dumps(default(key))` and re-reads it through the wrapped
`__getitem__`, which already unpickles it; the outer wrapped call then
applies `unserialize_val` a second time, to the plain object, and
`pickle.loads` of a non-bytes object fails. Shown at the failing input
`DefaultRepository(default=lambda k: "v").get("a")` on empty storage, for
every sufficient recursion depth. -/
theorem default_repository_get_raises :
    (defrepo_get (DefCfg.mk [] (fun _ => .mkStr "v".data)) 2 DefSt.empty "a".data).1
      = .error .typeError
    ∧ ∀ fuel : Nat,
      (defrepo_get (DefCfg.mk [] (fun _ => .mkStr "v".data)) (fuel + 2)
        DefSt.empty "a".data).1 = .error .typeError := by
  refine ⟨rfl, fun fuel => ?_⟩
  simp [defrepo_get, defrepo_getitem, defrepo_getitem_raw, defrepo_setitem,
    defrepo_setitem_raw, DefSt.empty, pickle_dumps, pickle_loads, upd,
    DefErr.isKeyError]

end Omnidict
